import Mathlib

/-!
Verification of the bidirectional wallet-relationship search engine
(`index.js` and the variant engine in the second source file).

The JavaScript source is shallowly embedded: JS `Map`s become association
lists (iteration in insertion order, `set` replaces in place), the chain
providers behind `axios.get` become page-indexed oracles returning
`Except Unit` (an exception caught by the `try/catch` is `.error ()`),
and the per-request socket handler becomes a pure function from the
request and the process-wide cache to the emitted conclusion event.
-/

set_option autoImplicit false

namespace WalletRel

/-- Direction role of a discovered transfer edge, relative to the address
it was discovered from (`'sent_to'` / `'received_from'` in the source). -/
inductive Role where
  | sent_to
  | received_from
deriving DecidableEq, Repr

/-- The two supported chains, as returned by `identifyWallet`. -/
inductive Chain where
  | SOL
  | ETH
deriving DecidableEq, Repr

/-- Which frontier is being expanded (`currentSide` in the source). -/
inductive Side where
  | A
  | B
deriving DecidableEq, Repr

/-- The value stored in a connections `Map`:
`{ tx: ..., role: 'sent_to' | 'received_from' }`. -/
structure ConnInfo where
  tx : String
  role : Role
deriving DecidableEq, Repr

/-- A connections map `Map<address, {tx, role}>`, in insertion order. -/
abbrev ConnMap := List (String × ConnInfo)

/-- A record of `visitedA`/`visitedB`:
`{ parent: ..., tx: ..., role: ... }`, each possibly `null`. -/
structure VisitedRecord where
  parent : Option String
  tx : Option String
  role : Option Role
deriving DecidableEq, Repr

/-- A visited map `Map<address, VisitedRecord>`. -/
abbrev Visited := List (String × VisitedRecord)

/-- The process-wide `txCache : Map<address, ConnMap>`. -/
abbrev Cache := List (String × ConnMap)

/-- JS `Map.get` on an association list. -/
def vlookup {β : Type} : List (String × β) → String → Option β
  | [], _ => none
  | (k, v) :: rest, a => if k = a then some v else vlookup rest a

/-- JS `Map.set`: replace in place if the key is present, else append. -/
def mapSet {β : Type} (l : List (String × β)) (k : String) (v : β) :
    List (String × β) :=
  if (vlookup l k).isSome then
    l.map (fun p => if p.1 = k then (k, v) else p)
  else
    l ++ [(k, v)]

/-- The seed record `{ parent: null, tx: null, role: null }`. -/
def defRec : VisitedRecord := ⟨none, none, none⟩

/-- JS string coercion of a possibly-`null` value appended to a URL base. -/
def jsStr : Option String → String
  | some s => s
  | none => "null"

/-- JS `String.prototype.toLowerCase`, modelled per character.
(Core's `String.toLower` recurses on byte positions and does not reduce
definitionally, so the character-list map is used as its executable
equivalent.) -/
def jsToLower (s : String) : String := ⟨s.data.map Char.toLower⟩

/-- Address formatter `shorten`: `if (!addr || addr.length < 15) return addr`,
else first 4, mid 3, last 4 joined by `...`. -/
def shorten (addr : String) : String :=
  if addr.length < 15 then addr
  else
    let len := addr.length
    let start := addr.take 4
    let last := addr.takeRight 4
    let midStart := len / 2 - 1
    let mid := (addr.drop midStart).take 3
    start ++ "..." ++ mid ++ "..." ++ last

/-- One entry of `tx.nativeTransfers` / `tx.tokenTransfers`; `none` models
an absent (`undefined`, hence falsy) account field. -/
structure SolTransfer where
  fromUserAccount : Option String
  toUserAccount : Option String
deriving DecidableEq, Repr

/-- One Helius transaction object (only the fields the code reads). -/
structure SolTx where
  signature : String
  nativeTransfers : List SolTransfer
  tokenTransfers : List SolTransfer
deriving DecidableEq, Repr

/-- One Etherscan `tokentx` entry (only the fields the code reads);
`fromAddr`/`toAddr` stand for the JS `from`/`to` fields. -/
structure EthTx where
  hash : String
  fromAddr : String
  toAddr : String
deriving DecidableEq, Repr

/-- The transaction excluded for testing (`excludeTx` in `index.js`). -/
def excludeTx : String := "******"

/-- Body of the `data.forEach(tx => ...)` in `fetchSolanaTransfers`:
skip the excluded signature, then record every counterparty of every
native or token transfer, keyed in original case, last write wins. -/
def processSolTx (address : String) (conns : ConnMap) (tx : SolTx) : ConnMap :=
  if tx.signature = excludeTx then conns
  else
    (tx.nativeTransfers ++ tx.tokenTransfers).foldl
      (fun cs t =>
        let isSender := t.fromUserAccount = some address
        let other := if isSender then t.toUserAccount else t.fromUserAccount
        match other with
        | some o =>
            if o ≠ address then
              mapSet cs o ⟨tx.signature, if isSender then Role.sent_to else Role.received_from⟩
            else cs
        | none => cs)
      conns

/-- Page loop of `fetchSolanaTransfers`. A provider answer `.error ()` is
an `axios` exception: caught, logged and the loop breaks, returning the
connections gathered so far.  An empty page (`!data || data.length === 0`)
also breaks; a page shorter than 100 breaks after being processed. -/
def fetchSolPages (prov : Nat → Except Unit (List SolTx)) (address : String) :
    Nat → Nat → ConnMap → ConnMap
  | 0, _, conns => conns
  | fuel + 1, page, conns =>
    match prov page with
    | .error _ => conns
    | .ok data =>
      if data.length = 0 then conns
      else
        let conns' := data.foldl (processSolTx address) conns
        if data.length < 100 then conns'
        else fetchSolPages prov address fuel (page + 1) conns'

/-- Fetcher `fetchSolanaTransfers`: scan up to `maxPages = 10` pages. Successive
HTTP requests (driven by the `before=lastSignature` cursor) are modelled
as the page-indexed oracle `prov`. -/
def fetchSolanaTransfers (prov : Nat → Except Unit (List SolTx)) (address : String) :
    ConnMap :=
  fetchSolPages prov address 10 1 []

/-- Body of `data.result.forEach(t => ...)` in the ETH branch of
`getCachedTransfers`: counterparties are lowercased before storing. -/
def processEthTx (addrLower : String) (conns : ConnMap) (t : EthTx) : ConnMap :=
  let isSender := jsToLower t.fromAddr = addrLower
  let other := jsToLower (if isSender then t.toAddr else t.fromAddr)
  if other ≠ addrLower then
    mapSet conns other ⟨t.hash, if isSender then Role.sent_to else Role.received_from⟩
  else conns

/-- Page loop of the ETH branch (2 pages; a caught exception breaks,
an empty `data.result` breaks, a short page breaks after processing). -/
def fetchEthPages (prov : Nat → Except Unit (List EthTx)) (addrLower : String) :
    Nat → Nat → ConnMap → ConnMap
  | 0, _, conns => conns
  | fuel + 1, page, conns =>
    match prov page with
    | .error _ => conns
    | .ok data =>
      if data.length = 0 then conns
      else
        let conns' := data.foldl (processEthTx addrLower) conns
        if data.length < 100 then conns'
        else fetchEthPages prov addrLower fuel (page + 1) conns'

/-- ETH branch of `getCachedTransfers`: the Etherscan URL embeds the
lowercased address, so the oracle is consulted at `addrLower`. -/
def fetchEthTransfers (prov : String → Nat → Except Unit (List EthTx))
    (address : String) : ConnMap :=
  let addrLower := jsToLower address
  fetchEthPages (prov addrLower) addrLower 2 1 []

/-- The two chain-indexing services behind `axios.get`, as address- and
page-indexed oracles. -/
structure Providers where
  sol : String → Nat → Except Unit (List SolTx)
  eth : String → Nat → Except Unit (List EthTx)

/-- The chain dispatch inside `getCachedTransfers` (the `if/else if` on
`chain`). -/
def fetchForChain (P : Providers) (address : String) : Chain → ConnMap
  | Chain.SOL => fetchSolanaTransfers (P.sol address) address
  | Chain.ETH => fetchEthTransfers P.eth address

/-- Result of one `getCachedTransfers` call: the connections returned,
the cache afterwards, and whether the Transfer Source was contacted. -/
structure CacheOut where
  conns : ConnMap
  cache : Cache
  called : Bool
deriving DecidableEq

/-- Lookup `getCachedTransfers`: serve from `txCache` on hit; on miss fetch for
the chain, store the result (even if empty), and return it.  `called`
instruments whether the Transfer Source was consulted. -/
def getCachedTransfers (P : Providers) (cache : Cache) (address : String)
    (chain : Chain) : CacheOut :=
  match vlookup cache address with
  | some v => ⟨v, cache, false⟩
  | none =>
    let connections := fetchForChain P address chain
    ⟨connections, mapSet cache address connections, true⟩

/-- A spam note `{ address, txA: dataA.tx, txB: dataB.tx }`. -/
structure SpamNote where
  address : String
  txA : Option String
  txB : Option String
deriving DecidableEq, Repr

/-- Visited-set key canonicalization:
`infoA.chain === 'SOL' ? x : x.toLowerCase()`. -/
def canonKey (chain : Chain) (a : String) : String :=
  if chain = Chain.SOL then a else jsToLower a

/-- Result of the inner `for (let [neighbor, info] of neighbors)` loop. -/
structure ProcOut where
  myV : Visited
  nextQ : List String
  spam : List SpamNote
  meeting : Option String
deriving DecidableEq

/-- The neighbor loop of the search engine in `index.js`: each neighbor
is canonicalized; unseen neighbors are recorded (first discovery wins)
and enqueued; a collision with the other side either appends a spam note
(both roles `received_from`) and continues, or sets the meeting point and
breaks. -/
def processNeighbors (chain : Chain) (side : Side) (curr : String) :
    List (String × ConnInfo) → Visited → Visited → List String → List SpamNote → ProcOut
  | [], myV, _, nextQ, spam => ⟨myV, nextQ, spam, none⟩
  | (neighbor, info) :: rest, myV, otherV, nextQ, spam =>
    let neighborKey := canonKey chain neighbor
    if (vlookup myV neighborKey).isSome then
      processNeighbors chain side curr rest myV otherV nextQ spam
    else
      let myV' := (neighborKey, (⟨some curr, some info.tx, some info.role⟩ : VisitedRecord)) :: myV
      let nextQ' := nextQ ++ [neighborKey]
      if (vlookup otherV neighborKey).isSome then
        let dataA := (if side = Side.A then vlookup myV' neighborKey else vlookup otherV neighborKey).getD defRec
        let dataB := (if side = Side.B then vlookup myV' neighborKey else vlookup otherV neighborKey).getD defRec
        if dataA.role = some Role.received_from ∧ dataB.role = some Role.received_from then
          processNeighbors chain side curr rest myV' otherV nextQ'
            (spam ++ [⟨neighborKey, dataA.tx, dataB.tx⟩])
        else
          ⟨myV', nextQ', spam, some neighborKey⟩
      else
        processNeighbors chain side curr rest myV' otherV nextQ' spam

/-- Result of the `for (let curr of currentQueue)` loop. -/
structure ExpandOut where
  myV : Visited
  nextQ : List String
  spam : List SpamNote
  meeting : Option String
  cache : Cache
  calls : Nat
deriving DecidableEq

/-- The per-frontier loop of `index.js`: fetch each frontier address via
the cache, process its neighbors, and break out as soon as a meeting
point is set.  `calls` accumulates Transfer Source invocations. -/
def expandQueue (P : Providers) (chain : Chain) (side : Side) :
    List String → Visited → Visited → List String → List SpamNote → Cache → Nat → ExpandOut
  | [], myV, _, nextQ, spam, cache, calls => ⟨myV, nextQ, spam, none, cache, calls⟩
  | curr :: restQ, myV, otherV, nextQ, spam, cache, calls =>
    let fo := getCachedTransfers P cache curr chain
    let po := processNeighbors chain side curr fo.conns myV otherV nextQ spam
    let calls' := calls + (if fo.called then 1 else 0)
    match po.meeting with
    | some m => ⟨po.myV, po.nextQ, po.spam, some m, fo.cache, calls'⟩
    | none => expandQueue P chain side restQ po.myV otherV po.nextQ po.spam fo.cache calls'

/-- Final state of the step loop of `index.js`. -/
structure SearchOut where
  vA : Visited
  vB : Visited
  spam : List SpamNote
  meeting : Option String
  cache : Cache
  calls : Nat
deriving DecidableEq

/-- The `for (let step = 1; step <= hops; step++)` loop of `index.js`:
odd steps expand side A, even steps side B; the loop breaks on a meeting
point or when both frontiers are empty.  `fuel` is the number of
remaining iterations (`hops.toNat` initially). -/
def stepLoop (P : Providers) (chain : Chain) :
    Nat → Nat → List String → List String → Visited → Visited → List SpamNote → Cache → Nat → SearchOut
  | 0, _, _, _, vA, vB, spam, cache, calls => ⟨vA, vB, spam, none, cache, calls⟩
  | fuel + 1, step, queueA, queueB, vA, vB, spam, cache, calls =>
    let side := if step % 2 ≠ 0 then Side.A else Side.B
    let myV := if side = Side.A then vA else vB
    let otherV := if side = Side.A then vB else vA
    let currentQueue := if side = Side.A then queueA else queueB
    let eo := expandQueue P chain side currentQueue myV otherV [] spam cache calls
    let vA' := if side = Side.A then eo.myV else vA
    let vB' := if side = Side.A then vB else eo.myV
    let queueA' := if side = Side.A then eo.nextQ else queueA
    let queueB' := if side = Side.A then queueB else eo.nextQ
    match eo.meeting with
    | some m => ⟨vA', vB', eo.spam, some m, eo.cache, eo.calls⟩
    | none =>
      if queueA' = [] ∧ queueB' = [] then ⟨vA', vB', eo.spam, none, eo.cache, eo.calls⟩
      else stepLoop P chain fuel (step + 1) queueA' queueB' vA' vB' eo.spam eo.cache eo.calls

/-- The `maxHops` request field as seen by `parseInt`: absent or
non-numeric values parse to `NaN` (both falsy), numbers to themselves. -/
inductive HopsInput where
  | absent
  | nonNumeric
  | num (n : Int)

/-- Budget resolution `const hops = parseInt(maxHops) || 2`: `NaN` and `0` are falsy and
fall back to 2; every other number (negative ones included) is kept. -/
def resolveHops : HopsInput → Int
  | HopsInput.absent => 2
  | HopsInput.nonNumeric => 2
  | HopsInput.num n => if n = 0 then 2 else n

/-- Result of `identifyWallet`. -/
structure WalletInfo where
  chain : Chain
  txBase : String
deriving DecidableEq

/-- Classifier `identifyWallet`: the external validator (`WAValidator.validate(addr,
'sol')`) is abstracted as a boolean classifier; non-Solana falls back to
Ethereum. -/
def identifyWallet (validate : String → Bool) (addr : String) : WalletInfo :=
  if validate addr then ⟨Chain.SOL, "https://solscan.io/tx/"⟩
  else ⟨Chain.ETH, "https://etherscan.io/tx/"⟩

/-- The search proper of the `check-relationship` handler in `index.js`:
classify address A, resolve the hop budget, canonicalize both seeds by
A's chain, seed the visited maps and frontiers, and run the step loop. -/
def runSearch (P : Providers) (validate : String → Bool) (cache : Cache)
    (addrA addrB : String) (maxHops : HopsInput) : SearchOut :=
  let infoA := identifyWallet validate addrA
  let hops := resolveHops maxHops
  let startA := canonKey infoA.chain addrA
  let startB := canonKey infoA.chain addrB
  stepLoop P infoA.chain hops.toNat 1 [startA] [startB]
    [(startA, defRec)] [(startB, defRec)] [] cache 0

/-- One rendered evidence step `{ pair: "sender → receiver", url }`. -/
structure PathStep where
  pair : String
  url : String
deriving DecidableEq, Repr

/-- First loop of `reconstructPath`: walk side A's parent chain from the
meeting point, `unshift`-ing each rendered step, so the seed-side steps
come first.  `fuel` bounds the walk (the parent chains produced by the
search are depth-bounded, see `ParentChain` below). -/
def walkToA (v : Visited) (base : String) : Nat → String → List PathStep
  | 0, _ => []
  | fuel + 1, curr =>
    match vlookup v curr with
    | none => []
    | some step =>
      match step.parent with
      | none => []
      | some parent =>
        let sender := if step.role = some Role.sent_to then parent else curr
        let receiver := if step.role = some Role.sent_to then curr else parent
        walkToA v base fuel parent ++
          [⟨shorten sender ++ " → " ++ shorten receiver, base ++ jsStr step.tx⟩]

/-- Second loop of `reconstructPath`: walk side B's parent chain from the
meeting point, `push`-ing each rendered step. -/
def walkToB (v : Visited) (base : String) : Nat → String → List PathStep
  | 0, _ => []
  | fuel + 1, curr =>
    match vlookup v curr with
    | none => []
    | some step =>
      match step.parent with
      | none => []
      | some parent =>
        let sender := if step.role = some Role.sent_to then parent else curr
        let receiver := if step.role = some Role.sent_to then curr else parent
        (⟨shorten sender ++ " → " ++ shorten receiver, base ++ jsStr step.tx⟩ : PathStep) ::
          walkToB v base fuel parent

/-- Reconstruction `reconstructPath(vA, vB, middle, base)`: the A-side walk (seed-first
order) followed by the B-side walk. -/
def reconstructPath (vA vB : Visited) (middle base : String) : List PathStep :=
  walkToA vA base (vA.length + 1) middle ++ walkToB vB base (vB.length + 1) middle

/-- One formatted spam note
`{ address: shorten(s.address), urlA: txBase + s.txA, urlB: txBase + s.txB }`. -/
structure SpamOut where
  address : String
  urlA : String
  urlB : String
deriving DecidableEq, Repr

/-- The single `conclusion` event emitted by the handler. -/
structure Conclusion where
  status : String
  evidence : List PathStep
  spamNotes : List SpamOut
deriving DecidableEq, Repr

/-- The whole `check-relationship` handler of `index.js`: run the search,
format the spam notes, and emit either the `Connection Found` conclusion
with the reconstructed path or the not-found conclusion.  Also returns
the cache afterwards and the number of Transfer Source calls made. -/
def checkRelationship (P : Providers) (validate : String → Bool) (cache : Cache)
    (addrA addrB : String) (maxHops : HopsInput) : Conclusion × Cache × Nat :=
  let infoA := identifyWallet validate addrA
  let R := runSearch P validate cache addrA addrB maxHops
  let formatSpam := R.spam.map (fun s =>
    (⟨shorten s.address, infoA.txBase ++ jsStr s.txA, infoA.txBase ++ jsStr s.txB⟩ : SpamOut))
  match R.meeting with
  | some m =>
    let path := reconstructPath R.vA R.vB m infoA.txBase
    (⟨"Connection Found (" ++ toString path.length ++ " Hops)", path, formatSpam⟩,
      R.cache, R.calls)
  | none =>
    (⟨"No significant relationship found.", [], formatSpam⟩, R.cache, R.calls)

/-!  The variant engine of the second (unnamed) source file.  Its
`getCachedTransfers`, `reconstructPath` and `identifyWallet` are textually
identical to `index.js` and are shared above.  Its handler differs: no
case canonicalization of seeds or neighbor keys, an (unused)
classification of address B, and different status texts. -/

/-- Neighbor loop of the variant handler: identical to
`processNeighbors` except that the raw neighbor key is used (no
`canonKey`). -/
def vprocessNeighbors (side : Side) (curr : String) :
    List (String × ConnInfo) → Visited → Visited → List String → List SpamNote → ProcOut
  | [], myV, _, nextQ, spam => ⟨myV, nextQ, spam, none⟩
  | (neighbor, info) :: rest, myV, otherV, nextQ, spam =>
    if (vlookup myV neighbor).isSome then
      vprocessNeighbors side curr rest myV otherV nextQ spam
    else
      let myV' := (neighbor, (⟨some curr, some info.tx, some info.role⟩ : VisitedRecord)) :: myV
      let nextQ' := nextQ ++ [neighbor]
      if (vlookup otherV neighbor).isSome then
        let dataA := (if side = Side.A then vlookup myV' neighbor else vlookup otherV neighbor).getD defRec
        let dataB := (if side = Side.B then vlookup myV' neighbor else vlookup otherV neighbor).getD defRec
        if dataA.role = some Role.received_from ∧ dataB.role = some Role.received_from then
          vprocessNeighbors side curr rest myV' otherV nextQ'
            (spam ++ [⟨neighbor, dataA.tx, dataB.tx⟩])
        else
          ⟨myV', nextQ', spam, some neighbor⟩
      else
        vprocessNeighbors side curr rest myV' otherV nextQ' spam

/-- Per-frontier loop of the variant handler. -/
def vexpandQueue (P : Providers) (chain : Chain) (side : Side) :
    List String → Visited → Visited → List String → List SpamNote → Cache → Nat → ExpandOut
  | [], myV, _, nextQ, spam, cache, calls => ⟨myV, nextQ, spam, none, cache, calls⟩
  | curr :: restQ, myV, otherV, nextQ, spam, cache, calls =>
    let fo := getCachedTransfers P cache curr chain
    let po := vprocessNeighbors side curr fo.conns myV otherV nextQ spam
    let calls' := calls + (if fo.called then 1 else 0)
    match po.meeting with
    | some m => ⟨po.myV, po.nextQ, po.spam, some m, fo.cache, calls'⟩
    | none => vexpandQueue P chain side restQ po.myV otherV po.nextQ po.spam fo.cache calls'

/-- Step loop of the variant handler. -/
def vstepLoop (P : Providers) (chain : Chain) :
    Nat → Nat → List String → List String → Visited → Visited → List SpamNote → Cache → Nat → SearchOut
  | 0, _, _, _, vA, vB, spam, cache, calls => ⟨vA, vB, spam, none, cache, calls⟩
  | fuel + 1, step, queueA, queueB, vA, vB, spam, cache, calls =>
    let side := if step % 2 ≠ 0 then Side.A else Side.B
    let myV := if side = Side.A then vA else vB
    let otherV := if side = Side.A then vB else vA
    let currentQueue := if side = Side.A then queueA else queueB
    let eo := vexpandQueue P chain side currentQueue myV otherV [] spam cache calls
    let vA' := if side = Side.A then eo.myV else vA
    let vB' := if side = Side.A then vB else eo.myV
    let queueA' := if side = Side.A then eo.nextQ else queueA
    let queueB' := if side = Side.A then queueB else eo.nextQ
    match eo.meeting with
    | some m => ⟨vA', vB', eo.spam, some m, eo.cache, eo.calls⟩
    | none =>
      if queueA' = [] ∧ queueB' = [] then ⟨vA', vB', eo.spam, none, eo.cache, eo.calls⟩
      else vstepLoop P chain fuel (step + 1) queueA' queueB' vA' vB' eo.spam eo.cache eo.calls

/-- The search of the variant handler: it classifies both addresses
(`wB` is computed but never used), resolves the budget identically, and
seeds both sides with the raw request addresses. -/
def vrunSearch (P : Providers) (validate : String → Bool) (cache : Cache)
    (addrA addrB : String) (maxHops : HopsInput) : SearchOut :=
  let wA := identifyWallet validate addrA
  let hops := resolveHops maxHops
  vstepLoop P wA.chain hops.toNat 1 [addrA] [addrB]
    [(addrA, defRec)] [(addrB, defRec)] [] cache 0

/-- The whole `check-relationship` handler of the variant file. -/
def vcheckRelationship (P : Providers) (validate : String → Bool) (cache : Cache)
    (addrA addrB : String) (maxHops : HopsInput) : Conclusion × Cache × Nat :=
  let wA := identifyWallet validate addrA
  let R := vrunSearch P validate cache addrA addrB maxHops
  let formattedSpam := R.spam.map (fun s =>
    (⟨shorten s.address, wA.txBase ++ jsStr s.txA, wA.txBase ++ jsStr s.txB⟩ : SpamOut))
  match R.meeting with
  | some m =>
    let fullPath := reconstructPath R.vA R.vB m wA.txBase
    (⟨"Significant Connection Found (" ++ toString fullPath.length ++ " Hops)", fullPath, formattedSpam⟩,
      R.cache, R.calls)
  | none =>
    (⟨"No significant relationship found.", [], formattedSpam⟩, R.cache, R.calls)

/-- The "search outcome" compared between the two engines: found/not
found and meeting point, reconstructed evidence, and raw spam notes. -/
structure Outcome where
  meeting : Option String
  evidence : List PathStep
  spam : List SpamNote
deriving DecidableEq, Repr

/-- Outcome of the `index.js` engine for a request. -/
def indexOutcome (P : Providers) (validate : String → Bool) (cache : Cache)
    (addrA addrB : String) (maxHops : HopsInput) : Outcome :=
  let infoA := identifyWallet validate addrA
  let R := runSearch P validate cache addrA addrB maxHops
  ⟨R.meeting,
    match R.meeting with
    | some m => reconstructPath R.vA R.vB m infoA.txBase
    | none => [],
    R.spam⟩

/-- Outcome of the variant engine for a request. -/
def variantOutcome (P : Providers) (validate : String → Bool) (cache : Cache)
    (addrA addrB : String) (maxHops : HopsInput) : Outcome :=
  let wA := identifyWallet validate addrA
  let R := vrunSearch P validate cache addrA addrB maxHops
  ⟨R.meeting,
    match R.meeting with
    | some m => reconstructPath R.vA R.vB m wA.txBase
    | none => [],
    R.spam⟩

/-!  Concrete scenarios used by several theorems below. -/

/-- A classifier that accepts every address as Solana. -/
def exValidatorSol : String → Bool := fun _ => true

/-- A classifier that accepts no address as Solana (everything falls back
to Ethereum). -/
def exValidatorEth : String → Bool := fun _ => false

/-- Transfer Source for the spec's running example: `A` sent to `X`
(transaction `t1`), and `B` received from `X` (transaction `t2`). -/
def exProvAB : Providers where
  sol := fun a page =>
    if a = "A" ∧ page = 1 then .ok [⟨"t1", [⟨some "A", some "X"⟩], []⟩]
    else if a = "B" ∧ page = 1 then .ok [⟨"t2", [⟨some "X", some "B"⟩], []⟩]
    else .ok []
  eth := fun _ _ => .ok []

/-- A Transfer Source with no data at all. -/
def exProvEmpty : Providers where
  sol := fun _ _ => .ok []
  eth := fun _ _ => .ok []

/-- A Transfer Source whose every request fails. -/
def exProvFail : Providers where
  sol := fun _ _ => .error ()
  eth := fun _ _ => .error ()

/-- A transaction in which `S` receives from `Z`. -/
def spamTx : SolTx := ⟨"t", [⟨some "Z", some "S"⟩], []⟩

/-- A provider whose first page for `S` is full (100 transactions, so
pagination continues) and which then fails on the second request. -/
def exProvCutoff : Providers where
  sol := fun a page =>
    if a = "S" ∧ page = 1 then .ok (List.replicate 100 spamTx) else .error ()
  eth := fun _ _ => .ok []

/-- An ETH Transfer Source: `0xa` sent to `0xB` (hash `t1`); no data for
any other address. -/
def exProvEth : Providers where
  sol := fun _ _ => .ok []
  eth := fun a page =>
    if a = "0xa" ∧ page = 1 then .ok [⟨"t1", "0xa", "0xB"⟩] else .ok []

/-- Parent-chain depth: `ParentChain v a n` holds when following parent
pointers from `a` through `v` reaches a record with `parent = none`
(a seed) in exactly `n` steps. -/
inductive ParentChain (v : Visited) : String → Nat → Prop where
  | zero (a : String) (r : VisitedRecord) :
      vlookup v a = some r → r.parent = none → ParentChain v a 0
  | succ (a : String) (r : VisitedRecord) (p : String) (n : Nat) :
      vlookup v a = some r → r.parent = some p → ParentChain v p n →
      ParentChain v a (n + 1)

/-- Record-preserving extension of an association list: every present
key keeps its exact value. -/
def Extends {β : Type} (v v' : List (String × β)) : Prop :=
  ∀ a r, vlookup v a = some r → vlookup v' a = some r

/-- The keys of an association list. -/
def keys {β : Type} (v : List (String × β)) : List String :=
  v.map Prod.fst

/-- All keys of a connections map are fixed by `canonKey` for the given
chain (true of everything the ETH fetch produces when the provider's
data is already lowercase, and of every map at all for SOL). -/
def ConnsCanon (chain : Chain) (m : ConnMap) : Prop :=
  ∀ p, p ∈ m → canonKey chain p.1 = p.1

/-- Every connections map stored in the cache satisfies `ConnsCanon`. -/
def CacheCanon (chain : Chain) (c : Cache) : Prop :=
  ∀ p, p ∈ c → ConnsCanon chain p.2

/-!  Basic lemmas about the association-list operations. -/

@[simp]
theorem vlookup_nil {β : Type} (a : String) : vlookup ([] : List (String × β)) a = none := rfl

@[simp]
theorem vlookup_cons {β : Type} (k : String) (v : β) (rest : List (String × β)) (a : String) :
    vlookup ((k, v) :: rest) a = if k = a then some v else vlookup rest a := rfl

theorem vlookup_mem {β : Type} : ∀ {v : List (String × β)} {a : String} {r : β},
    vlookup v a = some r → (a, r) ∈ v := by
  intro v
  induction v with
  | nil => intro a r h; simp [vlookup] at h
  | cons hd tl ih =>
    intro a r h
    obtain ⟨k, w⟩ := hd
    rw [vlookup_cons] at h
    split at h
    · next hk =>
      cases h
      subst hk
      exact List.mem_cons_self _ _
    · exact List.mem_cons_of_mem _ (ih h)

theorem vlookup_eq_none_of_not_mem_keys {β : Type} :
    ∀ {v : List (String × β)} {a : String}, a ∉ keys v → vlookup v a = none := by
  intro v
  induction v with
  | nil => intro a _; rfl
  | cons hd tl ih =>
    intro a h
    obtain ⟨k, w⟩ := hd
    simp only [keys, List.map_cons, List.mem_cons] at h
    push_neg at h
    rw [vlookup_cons, if_neg (fun hh => h.1 hh.symm)]
    exact ih (by simpa [keys] using h.2)

theorem not_mem_keys_of_vlookup_eq_none {β : Type} :
    ∀ {v : List (String × β)} {a : String}, vlookup v a = none → a ∉ keys v := by
  intro v
  induction v with
  | nil => intro a _ h; simp [keys] at h
  | cons hd tl ih =>
    intro a h hmem
    obtain ⟨k, w⟩ := hd
    simp only [vlookup_cons] at h
    by_cases hk : k = a
    · simp [if_pos hk] at h
    · rw [if_neg hk] at h
      simp only [keys, List.map_cons, List.mem_cons] at hmem
      rcases hmem with h1 | h2
      · exact hk h1.symm
      · exact ih h (by simpa [keys] using h2)

theorem vlookup_append_of_some {β : Type} {l1 l2 : List (String × β)} {a : String} {r : β}
    (h : vlookup l1 a = some r) : vlookup (l1 ++ l2) a = some r := by
  induction l1 with
  | nil => simp [vlookup] at h
  | cons hd tl ih =>
    obtain ⟨k, w⟩ := hd
    rw [vlookup_cons] at h
    rw [List.cons_append, vlookup_cons]
    split at h
    · next hk => rw [if_pos hk]; exact h
    · next hk => rw [if_neg hk]; exact ih h

theorem vlookup_append_of_none {β : Type} {l1 l2 : List (String × β)} {a : String}
    (h : vlookup l1 a = none) : vlookup (l1 ++ l2) a = vlookup l2 a := by
  induction l1 with
  | nil => rfl
  | cons hd tl ih =>
    obtain ⟨k, w⟩ := hd
    rw [vlookup_cons] at h
    rw [List.cons_append, vlookup_cons]
    split at h
    · exact absurd h (by simp)
    · next hk => rw [if_neg hk]; exact ih h

theorem mapSet_of_none {β : Type} {l : List (String × β)} {k : String} (v : β)
    (h : vlookup l k = none) : mapSet l k v = l ++ [(k, v)] := by
  simp [mapSet, h]

theorem mem_mapSet {β : Type} {l : List (String × β)} {k : String} {v : β} {p : String × β}
    (h : p ∈ mapSet l k v) : p = (k, v) ∨ p ∈ l := by
  unfold mapSet at h
  by_cases hs : (vlookup l k).isSome
  · rw [if_pos hs] at h
    obtain ⟨q, hq, hpq⟩ := List.mem_map.mp h
    by_cases hk : q.1 = k
    · left; simpa [if_pos hk] using hpq.symm
    · right; rw [if_neg hk] at hpq; exact hpq ▸ hq
  · rw [if_neg hs] at h
    rcases List.mem_append.mp h with h1 | h2
    · right; exact h1
    · left; simpa using h2

/-!  Lemmas about `Extends`, key distinctness and `ParentChain`. -/

theorem extends_refl {β : Type} (v : List (String × β)) : Extends v v :=
  fun _ _ h => h

theorem extends_trans {β : Type} {u v w : List (String × β)}
    (h1 : Extends u v) (h2 : Extends v w) : Extends u w :=
  fun a r h => h2 a r (h1 a r h)

theorem extends_cons_fresh {β : Type} {v : List (String × β)} {k : String} (r : β)
    (h : vlookup v k = none) : Extends v ((k, r) :: v) := by
  intro a x hx
  simp only [vlookup_cons]
  by_cases hk : k = a
  · subst hk; rw [h] at hx; exact absurd hx (by simp)
  · rw [if_neg hk]; exact hx

theorem keys_nodup_cons_fresh {β : Type} {v : List (String × β)} {k : String} (r : β)
    (hfresh : vlookup v k = none) (hnd : (keys v).Nodup) :
    (keys ((k, r) :: v)).Nodup := by
  simp only [keys, List.map_cons, List.nodup_cons]
  exact ⟨not_mem_keys_of_vlookup_eq_none hfresh, hnd⟩

theorem parentChain_mono {v v' : Visited} (hext : Extends v v') :
    ∀ {a : String} {n : Nat}, ParentChain v a n → ParentChain v' a n := by
  intro a n h
  induction h with
  | zero a r hl hp => exact ParentChain.zero a r (hext a r hl) hp
  | succ a r p n hl hp _ ih => exact ParentChain.succ a r p n (hext a r hl) hp ih

theorem walkToA_length_le {v : Visited} {base : String} :
    ∀ {a : String} {n : Nat}, ParentChain v a n →
    ∀ fuel, (walkToA v base fuel a).length ≤ n := by
  intro a n h
  induction h with
  | zero a r hl hp =>
    intro fuel
    cases fuel with
    | zero => simp [walkToA]
    | succ f => simp [walkToA, hl, hp]
  | succ a r p n hl hp _ ih =>
    intro fuel
    cases fuel with
    | zero => simp [walkToA]
    | succ f =>
      simp only [walkToA, hl, hp]
      have := ih f
      simp only [List.length_append, List.length_cons, List.length_nil]
      omega

theorem walkToB_eq_reverse_walkToA (v : Visited) (base : String) :
    ∀ (fuel : Nat) (curr : String),
    walkToB v base fuel curr = (walkToA v base fuel curr).reverse := by
  intro fuel
  induction fuel with
  | zero => intro curr; simp [walkToA, walkToB]
  | succ f ih =>
    intro curr
    simp only [walkToA, walkToB]
    cases hl : vlookup v curr with
    | none => simp
    | some step =>
      dsimp only
      cases hp : step.parent with
      | none => simp
      | some parent => simp [ih parent]

theorem walkToB_length_le {v : Visited} {base : String} {a : String} {n : Nat}
    (h : ParentChain v a n) (fuel : Nat) : (walkToB v base fuel a).length ≤ n := by
  rw [walkToB_eq_reverse_walkToA, List.length_reverse]
  exact walkToA_length_le h fuel


/-!  Branch-rewrite lemmas for the neighbor loop: one unfolding equation
per control-flow path of the source's inner loop body. -/

theorem processNeighbors_nil (chain : Chain) (side : Side) (curr : String)
    (myV otherV : Visited) (nextQ : List String) (spam : List SpamNote) :
    processNeighbors chain side curr [] myV otherV nextQ spam = ⟨myV, nextQ, spam, none⟩ := rfl

theorem processNeighbors_cons_visited {chain : Chain} {side : Side} {curr neighbor : String}
    {info : ConnInfo} {rest : List (String × ConnInfo)} {myV otherV : Visited}
    {nextQ : List String} {spam : List SpamNote} {r : VisitedRecord}
    (h1 : vlookup myV (canonKey chain neighbor) = some r) :
    processNeighbors chain side curr ((neighbor, info) :: rest) myV otherV nextQ spam =
      processNeighbors chain side curr rest myV otherV nextQ spam := by
  simp [processNeighbors, h1]

theorem processNeighbors_cons_fresh_nocollide {chain : Chain} {side : Side}
    {curr neighbor : String} {info : ConnInfo} {rest : List (String × ConnInfo)}
    {myV otherV : Visited} {nextQ : List String} {spam : List SpamNote}
    (h1 : vlookup myV (canonKey chain neighbor) = none)
    (h2 : vlookup otherV (canonKey chain neighbor) = none) :
    processNeighbors chain side curr ((neighbor, info) :: rest) myV otherV nextQ spam =
      processNeighbors chain side curr rest
        ((canonKey chain neighbor, (⟨some curr, some info.tx, some info.role⟩ : VisitedRecord)) :: myV)
        otherV (nextQ ++ [canonKey chain neighbor]) spam := by
  simp [processNeighbors, h1, h2]

theorem processNeighbors_cons_collide {chain : Chain} {side : Side} {curr neighbor : String}
    {info : ConnInfo} {rest : List (String × ConnInfo)} {myV otherV : Visited}
    {nextQ : List String} {spam : List SpamNote} {ro : VisitedRecord}
    (h1 : vlookup myV (canonKey chain neighbor) = none)
    (h2 : vlookup otherV (canonKey chain neighbor) = some ro) :
    processNeighbors chain side curr ((neighbor, info) :: rest) myV otherV nextQ spam =
      (if info.role = Role.received_from ∧ ro.role = some Role.received_from then
        processNeighbors chain side curr rest
          ((canonKey chain neighbor, (⟨some curr, some info.tx, some info.role⟩ : VisitedRecord)) :: myV)
          otherV (nextQ ++ [canonKey chain neighbor])
          (spam ++ [if side = Side.A
            then (⟨canonKey chain neighbor, some info.tx, ro.tx⟩ : SpamNote)
            else (⟨canonKey chain neighbor, ro.tx, some info.tx⟩ : SpamNote)])
      else
        ⟨(canonKey chain neighbor, (⟨some curr, some info.tx, some info.role⟩ : VisitedRecord)) :: myV,
          nextQ ++ [canonKey chain neighbor], spam, some (canonKey chain neighbor)⟩) := by
  cases side <;> simp [processNeighbors, h1, h2, and_comm]

/-!  Invariants of the neighbor loop. -/

theorem processNeighbors_extends (chain : Chain) (side : Side) (curr : String) :
    ∀ (neighbors : List (String × ConnInfo)) (myV otherV : Visited)
      (nextQ : List String) (spam : List SpamNote),
    Extends myV (processNeighbors chain side curr neighbors myV otherV nextQ spam).myV := by
  intro neighbors
  induction neighbors with
  | nil =>
    intro myV otherV nextQ spam
    rw [processNeighbors_nil]
    exact extends_refl _
  | cons hd rest ih =>
    intro myV otherV nextQ spam
    obtain ⟨neighbor, info⟩ := hd
    cases h1 : vlookup myV (canonKey chain neighbor) with
    | some r =>
      rw [processNeighbors_cons_visited h1]
      exact ih myV otherV nextQ spam
    | none =>
      cases h2 : vlookup otherV (canonKey chain neighbor) with
      | none =>
        rw [processNeighbors_cons_fresh_nocollide h1 h2]
        exact extends_trans (extends_cons_fresh _ h1) (ih _ _ _ _)
      | some ro =>
        rw [processNeighbors_cons_collide h1 h2]
        split
        · exact extends_trans (extends_cons_fresh _ h1) (ih _ _ _ _)
        · exact extends_cons_fresh _ h1

theorem processNeighbors_keys_nodup (chain : Chain) (side : Side) (curr : String) :
    ∀ (neighbors : List (String × ConnInfo)) (myV otherV : Visited)
      (nextQ : List String) (spam : List SpamNote),
    (keys myV).Nodup →
    (keys (processNeighbors chain side curr neighbors myV otherV nextQ spam).myV).Nodup := by
  intro neighbors
  induction neighbors with
  | nil =>
    intro myV otherV nextQ spam h
    rw [processNeighbors_nil]
    exact h
  | cons hd rest ih =>
    intro myV otherV nextQ spam h
    obtain ⟨neighbor, info⟩ := hd
    cases h1 : vlookup myV (canonKey chain neighbor) with
    | some r =>
      rw [processNeighbors_cons_visited h1]
      exact ih myV otherV nextQ spam h
    | none =>
      cases h2 : vlookup otherV (canonKey chain neighbor) with
      | none =>
        rw [processNeighbors_cons_fresh_nocollide h1 h2]
        exact ih _ _ _ _ (keys_nodup_cons_fresh _ h1 h)
      | some ro =>
        rw [processNeighbors_cons_collide h1 h2]
        split
        · exact ih _ _ _ _ (keys_nodup_cons_fresh _ h1 h)
        · exact keys_nodup_cons_fresh _ h1 h

/-- Depth invariant of the neighbor loop: if the current address has
parent-chain depth at most `d`, every key at most `d + 1`, and every
pending next-frontier entry at most `d + 1`, the same holds after the
loop, and a meeting point has depth at most `d + 1` on this side and is
present in the other side's visited map. -/
theorem processNeighbors_depth (chain : Chain) (side : Side) (curr : String) :
    ∀ (neighbors : List (String × ConnInfo)) (myV otherV : Visited)
      (nextQ : List String) (spam : List SpamNote) (d nc : Nat),
    nc ≤ d → ParentChain myV curr nc →
    (∀ a r, vlookup myV a = some r → ∃ n, n ≤ d + 1 ∧ ParentChain myV a n) →
    (∀ a, a ∈ nextQ → ∃ n, n ≤ d + 1 ∧ ParentChain myV a n) →
    ((∀ a r, vlookup (processNeighbors chain side curr neighbors myV otherV nextQ spam).myV a = some r →
        ∃ n, n ≤ d + 1 ∧ ParentChain (processNeighbors chain side curr neighbors myV otherV nextQ spam).myV a n) ∧
     (∀ a, a ∈ (processNeighbors chain side curr neighbors myV otherV nextQ spam).nextQ →
        ∃ n, n ≤ d + 1 ∧ ParentChain (processNeighbors chain side curr neighbors myV otherV nextQ spam).myV a n) ∧
     (∀ m, (processNeighbors chain side curr neighbors myV otherV nextQ spam).meeting = some m →
        (∃ n, n ≤ d + 1 ∧ ParentChain (processNeighbors chain side curr neighbors myV otherV nextQ spam).myV m n) ∧
        ∃ r2, vlookup otherV m = some r2)) := by
  intro neighbors
  induction neighbors with
  | nil =>
    intro myV otherV nextQ spam d nc hnc hc hk hq
    rw [processNeighbors_nil]
    exact ⟨hk, hq, by intro m hm; simp at hm⟩
  | cons hd rest ih =>
    intro myV otherV nextQ spam d nc hnc hc hk hq
    obtain ⟨neighbor, info⟩ := hd
    cases h1 : vlookup myV (canonKey chain neighbor) with
    | some r =>
      rw [processNeighbors_cons_visited h1]
      exact ih myV otherV nextQ spam d nc hnc hc hk hq
    | none =>
      have hext : Extends myV ((canonKey chain neighbor,
          (⟨some curr, some info.tx, some info.role⟩ : VisitedRecord)) :: myV) :=
        extends_cons_fresh _ h1
      have hlook : vlookup ((canonKey chain neighbor,
          (⟨some curr, some info.tx, some info.role⟩ : VisitedRecord)) :: myV)
          (canonKey chain neighbor) =
          some (⟨some curr, some info.tx, some info.role⟩ : VisitedRecord) := by
        simp
      have hchain : ParentChain ((canonKey chain neighbor,
          (⟨some curr, some info.tx, some info.role⟩ : VisitedRecord)) :: myV)
          (canonKey chain neighbor) (nc + 1) :=
        ParentChain.succ _ _ curr nc hlook rfl (parentChain_mono hext hc)
      have hk' : ∀ a r, vlookup ((canonKey chain neighbor,
          (⟨some curr, some info.tx, some info.role⟩ : VisitedRecord)) :: myV) a = some r →
          ∃ n, n ≤ d + 1 ∧ ParentChain ((canonKey chain neighbor,
            (⟨some curr, some info.tx, some info.role⟩ : VisitedRecord)) :: myV) a n := by
        intro a r hr
        rw [vlookup_cons] at hr
        split at hr
        · next heq => subst heq; exact ⟨nc + 1, by omega, hchain⟩
        · obtain ⟨n, hn, hcn⟩ := hk a r hr
          exact ⟨n, hn, parentChain_mono hext hcn⟩
      have hq' : ∀ a, a ∈ nextQ ++ [canonKey chain neighbor] →
          ∃ n, n ≤ d + 1 ∧ ParentChain ((canonKey chain neighbor,
            (⟨some curr, some info.tx, some info.role⟩ : VisitedRecord)) :: myV) a n := by
        intro a ha
        rcases List.mem_append.mp ha with ha | ha
        · obtain ⟨n, hn, hcn⟩ := hq a ha
          exact ⟨n, hn, parentChain_mono hext hcn⟩
        · simp at ha
          subst ha
          exact ⟨nc + 1, by omega, hchain⟩
      have hc' : ParentChain ((canonKey chain neighbor,
          (⟨some curr, some info.tx, some info.role⟩ : VisitedRecord)) :: myV) curr nc :=
        parentChain_mono hext hc
      cases h2 : vlookup otherV (canonKey chain neighbor) with
      | none =>
        rw [processNeighbors_cons_fresh_nocollide h1 h2]
        exact ih _ otherV _ spam d nc hnc hc' hk' hq'
      | some ro =>
        rw [processNeighbors_cons_collide h1 h2]
        split
        · exact ih _ otherV _ _ d nc hnc hc' hk' hq'
        · refine ⟨hk', hq', ?_⟩
          intro m hm
          simp only [Option.some.injEq] at hm
          subst hm
          exact ⟨⟨nc + 1, by omega, hchain⟩, ⟨ro, h2⟩⟩

/-- Spam invariant of the neighbor loop: spam-note addresses stay
pairwise distinct; every note's address is recorded on both sides with
role `received_from` and the note carries those records' transaction
references; and a returned meeting point has records on both sides whose
roles are not both `received_from`. -/
theorem processNeighbors_spam (chain : Chain) (side : Side) (curr : String) :
    ∀ (neighbors : List (String × ConnInfo)) (myV otherV : Visited)
      (nextQ : List String) (spam : List SpamNote),
    (spam.map SpamNote.address).Nodup →
    (∀ s, s ∈ spam → ∃ rm ro2, vlookup myV s.address = some rm ∧
       vlookup otherV s.address = some ro2 ∧
       rm.role = some Role.received_from ∧ ro2.role = some Role.received_from ∧
       (if side = Side.A then s.txA = rm.tx ∧ s.txB = ro2.tx
        else s.txA = ro2.tx ∧ s.txB = rm.tx)) →
    (((processNeighbors chain side curr neighbors myV otherV nextQ spam).spam.map SpamNote.address).Nodup ∧
     (∀ s, s ∈ (processNeighbors chain side curr neighbors myV otherV nextQ spam).spam →
        ∃ rm ro2, vlookup (processNeighbors chain side curr neighbors myV otherV nextQ spam).myV s.address = some rm ∧
          vlookup otherV s.address = some ro2 ∧
          rm.role = some Role.received_from ∧ ro2.role = some Role.received_from ∧
          (if side = Side.A then s.txA = rm.tx ∧ s.txB = ro2.tx
           else s.txA = ro2.tx ∧ s.txB = rm.tx)) ∧
     (∀ m, (processNeighbors chain side curr neighbors myV otherV nextQ spam).meeting = some m →
        ∃ rm ro2, vlookup (processNeighbors chain side curr neighbors myV otherV nextQ spam).myV m = some rm ∧
          vlookup otherV m = some ro2 ∧
          ¬(rm.role = some Role.received_from ∧ ro2.role = some Role.received_from))) := by
  intro neighbors
  induction neighbors with
  | nil =>
    intro myV otherV nextQ spam hnd hsp
    rw [processNeighbors_nil]
    exact ⟨hnd, hsp, by intro m hm; simp at hm⟩
  | cons hd rest ih =>
    intro myV otherV nextQ spam hnd hsp
    obtain ⟨neighbor, info⟩ := hd
    cases h1 : vlookup myV (canonKey chain neighbor) with
    | some r =>
      rw [processNeighbors_cons_visited h1]
      exact ih myV otherV nextQ spam hnd hsp
    | none =>
      have hext : Extends myV ((canonKey chain neighbor,
          (⟨some curr, some info.tx, some info.role⟩ : VisitedRecord)) :: myV) :=
        extends_cons_fresh _ h1
      have hlook : vlookup ((canonKey chain neighbor,
          (⟨some curr, some info.tx, some info.role⟩ : VisitedRecord)) :: myV)
          (canonKey chain neighbor) =
          some (⟨some curr, some info.tx, some info.role⟩ : VisitedRecord) := by
        simp
      have hsp' : ∀ s, s ∈ spam → ∃ rm ro2, vlookup ((canonKey chain neighbor,
          (⟨some curr, some info.tx, some info.role⟩ : VisitedRecord)) :: myV) s.address = some rm ∧
          vlookup otherV s.address = some ro2 ∧
          rm.role = some Role.received_from ∧ ro2.role = some Role.received_from ∧
          (if side = Side.A then s.txA = rm.tx ∧ s.txB = ro2.tx
           else s.txA = ro2.tx ∧ s.txB = rm.tx) := by
        intro s hs
        obtain ⟨rm, ro2, hm, ho, hr1, hr2, htx⟩ := hsp s hs
        exact ⟨rm, ro2, hext _ _ hm, ho, hr1, hr2, htx⟩
      cases h2 : vlookup otherV (canonKey chain neighbor) with
      | none =>
        rw [processNeighbors_cons_fresh_nocollide h1 h2]
        exact ih _ otherV _ spam hnd hsp'
      | some ro =>
        rw [processNeighbors_cons_collide h1 h2]
        split
        · next hcond =>
          apply ih
          · rw [List.map_append, List.nodup_append]
            refine ⟨hnd, by simp, ?_⟩
            intro x hx hy
            simp only [List.map_cons, List.map_nil, List.mem_singleton] at hy
            have hyk : x = canonKey chain neighbor := by
              by_cases hside : side = Side.A <;> simp [hside] at hy <;> exact hy
            obtain ⟨s, hs, hsx⟩ := List.mem_map.mp hx
            obtain ⟨rm, ro2, hm, _⟩ := hsp s hs
            rw [hsx, hyk, h1] at hm
            exact Option.noConfusion hm
          · intro s hs
            rcases List.mem_append.mp hs with hs | hs
            · exact hsp' s hs
            · simp only [List.mem_singleton] at hs
              subst hs
              by_cases hside : side = Side.A
              · refine ⟨⟨some curr, some info.tx, some info.role⟩, ro, ?_, ?_, ?_, ?_, ?_⟩ <;>
                  simp [hside, hlook, h2, hcond.1, hcond.2]
              · refine ⟨⟨some curr, some info.tx, some info.role⟩, ro, ?_, ?_, ?_, ?_, ?_⟩ <;>
                  simp [hside, hlook, h2, hcond.1, hcond.2]
        · next hcond =>
          refine ⟨hnd, hsp', ?_⟩
          intro m hm
          simp only [Option.some.injEq] at hm
          subst hm
          refine ⟨⟨some curr, some info.tx, some info.role⟩, ro, hlook, h2, ?_⟩
          intro hboth
          apply hcond
          refine ⟨?_, hboth.2⟩
          have := hboth.1
          simpa using this

/-!  Branch-rewrite lemmas and invariants for the per-frontier loop. -/

theorem expandQueue_nil (P : Providers) (chain : Chain) (side : Side)
    (myV otherV : Visited) (nextQ : List String) (spam : List SpamNote)
    (cache : Cache) (calls : Nat) :
    expandQueue P chain side [] myV otherV nextQ spam cache calls =
      ⟨myV, nextQ, spam, none, cache, calls⟩ := rfl

theorem expandQueue_cons_meeting {P : Providers} {chain : Chain} {side : Side}
    {curr : String} {restQ : List String} {myV otherV : Visited}
    {nextQ : List String} {spam : List SpamNote} {cache : Cache} {calls : Nat} {m : String}
    (h : (processNeighbors chain side curr (getCachedTransfers P cache curr chain).conns
        myV otherV nextQ spam).meeting = some m) :
    expandQueue P chain side (curr :: restQ) myV otherV nextQ spam cache calls =
      ⟨(processNeighbors chain side curr (getCachedTransfers P cache curr chain).conns
          myV otherV nextQ spam).myV,
       (processNeighbors chain side curr (getCachedTransfers P cache curr chain).conns
          myV otherV nextQ spam).nextQ,
       (processNeighbors chain side curr (getCachedTransfers P cache curr chain).conns
          myV otherV nextQ spam).spam,
       some m,
       (getCachedTransfers P cache curr chain).cache,
       calls + (if (getCachedTransfers P cache curr chain).called then 1 else 0)⟩ := by
  simp [expandQueue, h]

theorem expandQueue_cons_continue {P : Providers} {chain : Chain} {side : Side}
    {curr : String} {restQ : List String} {myV otherV : Visited}
    {nextQ : List String} {spam : List SpamNote} {cache : Cache} {calls : Nat}
    (h : (processNeighbors chain side curr (getCachedTransfers P cache curr chain).conns
        myV otherV nextQ spam).meeting = none) :
    expandQueue P chain side (curr :: restQ) myV otherV nextQ spam cache calls =
      expandQueue P chain side restQ
        (processNeighbors chain side curr (getCachedTransfers P cache curr chain).conns
          myV otherV nextQ spam).myV
        otherV
        (processNeighbors chain side curr (getCachedTransfers P cache curr chain).conns
          myV otherV nextQ spam).nextQ
        (processNeighbors chain side curr (getCachedTransfers P cache curr chain).conns
          myV otherV nextQ spam).spam
        (getCachedTransfers P cache curr chain).cache
        (calls + (if (getCachedTransfers P cache curr chain).called then 1 else 0)) := by
  simp [expandQueue, h]

theorem expandQueue_extends (P : Providers) (chain : Chain) (side : Side) :
    ∀ (queue : List String) (myV otherV : Visited) (nextQ : List String)
      (spam : List SpamNote) (cache : Cache) (calls : Nat),
    Extends myV (expandQueue P chain side queue myV otherV nextQ spam cache calls).myV := by
  intro queue
  induction queue with
  | nil =>
    intro myV otherV nextQ spam cache calls
    rw [expandQueue_nil]
    exact extends_refl _
  | cons curr restQ ih =>
    intro myV otherV nextQ spam cache calls
    cases hpo : (processNeighbors chain side curr (getCachedTransfers P cache curr chain).conns
        myV otherV nextQ spam).meeting with
    | some m =>
      rw [expandQueue_cons_meeting hpo]
      exact processNeighbors_extends chain side curr _ myV otherV nextQ spam
    | none =>
      rw [expandQueue_cons_continue hpo]
      exact extends_trans (processNeighbors_extends chain side curr _ myV otherV nextQ spam)
        (ih _ _ _ _ _ _)

theorem expandQueue_keys_nodup (P : Providers) (chain : Chain) (side : Side) :
    ∀ (queue : List String) (myV otherV : Visited) (nextQ : List String)
      (spam : List SpamNote) (cache : Cache) (calls : Nat),
    (keys myV).Nodup →
    (keys (expandQueue P chain side queue myV otherV nextQ spam cache calls).myV).Nodup := by
  intro queue
  induction queue with
  | nil =>
    intro myV otherV nextQ spam cache calls h
    rw [expandQueue_nil]
    exact h
  | cons curr restQ ih =>
    intro myV otherV nextQ spam cache calls h
    cases hpo : (processNeighbors chain side curr (getCachedTransfers P cache curr chain).conns
        myV otherV nextQ spam).meeting with
    | some m =>
      rw [expandQueue_cons_meeting hpo]
      exact processNeighbors_keys_nodup chain side curr _ myV otherV nextQ spam h
    | none =>
      rw [expandQueue_cons_continue hpo]
      exact ih _ _ _ _ _ _ (processNeighbors_keys_nodup chain side curr _ myV otherV nextQ spam h)

/-- Depth invariant of the per-frontier loop. -/
theorem expandQueue_depth (P : Providers) (chain : Chain) (side : Side) :
    ∀ (queue : List String) (myV otherV : Visited) (nextQ : List String)
      (spam : List SpamNote) (cache : Cache) (calls : Nat) (d : Nat),
    (∀ a, a ∈ queue → ∃ n, n ≤ d ∧ ParentChain myV a n) →
    (∀ a r, vlookup myV a = some r → ∃ n, n ≤ d + 1 ∧ ParentChain myV a n) →
    (∀ a, a ∈ nextQ → ∃ n, n ≤ d + 1 ∧ ParentChain myV a n) →
    ((∀ a r, vlookup (expandQueue P chain side queue myV otherV nextQ spam cache calls).myV a = some r →
        ∃ n, n ≤ d + 1 ∧ ParentChain (expandQueue P chain side queue myV otherV nextQ spam cache calls).myV a n) ∧
     (∀ a, a ∈ (expandQueue P chain side queue myV otherV nextQ spam cache calls).nextQ →
        ∃ n, n ≤ d + 1 ∧ ParentChain (expandQueue P chain side queue myV otherV nextQ spam cache calls).myV a n) ∧
     (∀ m, (expandQueue P chain side queue myV otherV nextQ spam cache calls).meeting = some m →
        (∃ n, n ≤ d + 1 ∧ ParentChain (expandQueue P chain side queue myV otherV nextQ spam cache calls).myV m n) ∧
        ∃ r2, vlookup otherV m = some r2)) := by
  intro queue
  induction queue with
  | nil =>
    intro myV otherV nextQ spam cache calls d hq hk hnq
    rw [expandQueue_nil]
    exact ⟨hk, hnq, by intro m hm; simp at hm⟩
  | cons curr restQ ih =>
    intro myV otherV nextQ spam cache calls d hq hk hnq
    obtain ⟨nc, hnc, hcc⟩ := hq curr (List.mem_cons_self _ _)
    have hpn := processNeighbors_depth chain side curr
      (getCachedTransfers P cache curr chain).conns myV otherV nextQ spam d nc hnc hcc hk hnq
    cases hpo : (processNeighbors chain side curr (getCachedTransfers P cache curr chain).conns
        myV otherV nextQ spam).meeting with
    | some m =>
      rw [expandQueue_cons_meeting hpo]
      exact ⟨hpn.1, hpn.2.1, by
        intro m' hm'
        simp only [Option.some.injEq] at hm'
        subst hm'
        exact hpn.2.2 m hpo⟩
    | none =>
      rw [expandQueue_cons_continue hpo]
      apply ih
      · intro a ha
        obtain ⟨n, hn, hcn⟩ := hq a (List.mem_cons_of_mem _ ha)
        exact ⟨n, hn,
          parentChain_mono (processNeighbors_extends chain side curr _ myV otherV nextQ spam) hcn⟩
      · exact hpn.1
      · exact hpn.2.1

/-- Spam invariant of the per-frontier loop. -/
theorem expandQueue_spam (P : Providers) (chain : Chain) (side : Side) :
    ∀ (queue : List String) (myV otherV : Visited) (nextQ : List String)
      (spam : List SpamNote) (cache : Cache) (calls : Nat),
    (spam.map SpamNote.address).Nodup →
    (∀ s, s ∈ spam → ∃ rm ro2, vlookup myV s.address = some rm ∧
       vlookup otherV s.address = some ro2 ∧
       rm.role = some Role.received_from ∧ ro2.role = some Role.received_from ∧
       (if side = Side.A then s.txA = rm.tx ∧ s.txB = ro2.tx
        else s.txA = ro2.tx ∧ s.txB = rm.tx)) →
    (((expandQueue P chain side queue myV otherV nextQ spam cache calls).spam.map SpamNote.address).Nodup ∧
     (∀ s, s ∈ (expandQueue P chain side queue myV otherV nextQ spam cache calls).spam →
        ∃ rm ro2, vlookup (expandQueue P chain side queue myV otherV nextQ spam cache calls).myV s.address = some rm ∧
          vlookup otherV s.address = some ro2 ∧
          rm.role = some Role.received_from ∧ ro2.role = some Role.received_from ∧
          (if side = Side.A then s.txA = rm.tx ∧ s.txB = ro2.tx
           else s.txA = ro2.tx ∧ s.txB = rm.tx)) ∧
     (∀ m, (expandQueue P chain side queue myV otherV nextQ spam cache calls).meeting = some m →
        ∃ rm ro2, vlookup (expandQueue P chain side queue myV otherV nextQ spam cache calls).myV m = some rm ∧
          vlookup otherV m = some ro2 ∧
          ¬(rm.role = some Role.received_from ∧ ro2.role = some Role.received_from))) := by
  intro queue
  induction queue with
  | nil =>
    intro myV otherV nextQ spam cache calls hnd hsp
    rw [expandQueue_nil]
    exact ⟨hnd, hsp, by intro m hm; simp at hm⟩
  | cons curr restQ ih =>
    intro myV otherV nextQ spam cache calls hnd hsp
    have hpn := processNeighbors_spam chain side curr
      (getCachedTransfers P cache curr chain).conns myV otherV nextQ spam hnd hsp
    cases hpo : (processNeighbors chain side curr (getCachedTransfers P cache curr chain).conns
        myV otherV nextQ spam).meeting with
    | some m =>
      rw [expandQueue_cons_meeting hpo]
      exact ⟨hpn.1, hpn.2.1, by
        intro m' hm'
        simp only [Option.some.injEq] at hm'
        subst hm'
        exact hpn.2.2 m hpo⟩
    | none =>
      rw [expandQueue_cons_continue hpo]
      exact ih _ _ _ _ _ _ hpn.1 hpn.2.1

/-!  Branch-rewrite lemmas and invariants for the step loop. -/

theorem stepLoop_zero (P : Providers) (chain : Chain) (step : Nat)
    (queueA queueB : List String) (vA vB : Visited) (spam : List SpamNote)
    (cache : Cache) (calls : Nat) :
    stepLoop P chain 0 step queueA queueB vA vB spam cache calls =
      ⟨vA, vB, spam, none, cache, calls⟩ := rfl

theorem stepLoop_succ_sideA {P : Providers} {chain : Chain} {fuel step : Nat}
    {queueA queueB : List String} {vA vB : Visited} {spam : List SpamNote}
    {cache : Cache} {calls : Nat} (hp : step % 2 ≠ 0) :
    stepLoop P chain (fuel + 1) step queueA queueB vA vB spam cache calls =
      (match (expandQueue P chain Side.A queueA vA vB [] spam cache calls).meeting with
       | some m =>
         ⟨(expandQueue P chain Side.A queueA vA vB [] spam cache calls).myV, vB,
          (expandQueue P chain Side.A queueA vA vB [] spam cache calls).spam, some m,
          (expandQueue P chain Side.A queueA vA vB [] spam cache calls).cache,
          (expandQueue P chain Side.A queueA vA vB [] spam cache calls).calls⟩
       | none =>
         if (expandQueue P chain Side.A queueA vA vB [] spam cache calls).nextQ = [] ∧ queueB = [] then
           ⟨(expandQueue P chain Side.A queueA vA vB [] spam cache calls).myV, vB,
            (expandQueue P chain Side.A queueA vA vB [] spam cache calls).spam, none,
            (expandQueue P chain Side.A queueA vA vB [] spam cache calls).cache,
            (expandQueue P chain Side.A queueA vA vB [] spam cache calls).calls⟩
         else
           stepLoop P chain fuel (step + 1)
             (expandQueue P chain Side.A queueA vA vB [] spam cache calls).nextQ queueB
             (expandQueue P chain Side.A queueA vA vB [] spam cache calls).myV vB
             (expandQueue P chain Side.A queueA vA vB [] spam cache calls).spam
             (expandQueue P chain Side.A queueA vA vB [] spam cache calls).cache
             (expandQueue P chain Side.A queueA vA vB [] spam cache calls).calls) := by
  simp [stepLoop, hp]

theorem stepLoop_succ_sideB {P : Providers} {chain : Chain} {fuel step : Nat}
    {queueA queueB : List String} {vA vB : Visited} {spam : List SpamNote}
    {cache : Cache} {calls : Nat} (hp : step % 2 = 0) :
    stepLoop P chain (fuel + 1) step queueA queueB vA vB spam cache calls =
      (match (expandQueue P chain Side.B queueB vB vA [] spam cache calls).meeting with
       | some m =>
         ⟨vA, (expandQueue P chain Side.B queueB vB vA [] spam cache calls).myV,
          (expandQueue P chain Side.B queueB vB vA [] spam cache calls).spam, some m,
          (expandQueue P chain Side.B queueB vB vA [] spam cache calls).cache,
          (expandQueue P chain Side.B queueB vB vA [] spam cache calls).calls⟩
       | none =>
         if queueA = [] ∧ (expandQueue P chain Side.B queueB vB vA [] spam cache calls).nextQ = [] then
           ⟨vA, (expandQueue P chain Side.B queueB vB vA [] spam cache calls).myV,
            (expandQueue P chain Side.B queueB vB vA [] spam cache calls).spam, none,
            (expandQueue P chain Side.B queueB vB vA [] spam cache calls).cache,
            (expandQueue P chain Side.B queueB vB vA [] spam cache calls).calls⟩
         else
           stepLoop P chain fuel (step + 1)
             queueA (expandQueue P chain Side.B queueB vB vA [] spam cache calls).nextQ
             vA (expandQueue P chain Side.B queueB vB vA [] spam cache calls).myV
             (expandQueue P chain Side.B queueB vB vA [] spam cache calls).spam
             (expandQueue P chain Side.B queueB vB vA [] spam cache calls).cache
             (expandQueue P chain Side.B queueB vB vA [] spam cache calls).calls) := by
  simp [stepLoop, hp]

theorem stepLoop_extends (P : Providers) (chain : Chain) :
    ∀ (fuel step : Nat) (queueA queueB : List String) (vA vB : Visited)
      (spam : List SpamNote) (cache : Cache) (calls : Nat),
    Extends vA (stepLoop P chain fuel step queueA queueB vA vB spam cache calls).vA ∧
    Extends vB (stepLoop P chain fuel step queueA queueB vA vB spam cache calls).vB := by
  intro fuel
  induction fuel with
  | zero =>
    intro step queueA queueB vA vB spam cache calls
    rw [stepLoop_zero]
    exact ⟨extends_refl _, extends_refl _⟩
  | succ f ih =>
    intro step queueA queueB vA vB spam cache calls
    by_cases hp : step % 2 = 0
    · rw [stepLoop_succ_sideB hp]
      split
      · exact ⟨extends_refl _, expandQueue_extends P chain Side.B queueB vB vA [] spam cache calls⟩
      · split
        · exact ⟨extends_refl _, expandQueue_extends P chain Side.B queueB vB vA [] spam cache calls⟩
        · have := ih (step + 1) queueA
            (expandQueue P chain Side.B queueB vB vA [] spam cache calls).nextQ
            vA (expandQueue P chain Side.B queueB vB vA [] spam cache calls).myV
            (expandQueue P chain Side.B queueB vB vA [] spam cache calls).spam
            (expandQueue P chain Side.B queueB vB vA [] spam cache calls).cache
            (expandQueue P chain Side.B queueB vB vA [] spam cache calls).calls
          exact ⟨this.1, extends_trans
            (expandQueue_extends P chain Side.B queueB vB vA [] spam cache calls) this.2⟩
    · rw [stepLoop_succ_sideA hp]
      split
      · exact ⟨expandQueue_extends P chain Side.A queueA vA vB [] spam cache calls, extends_refl _⟩
      · split
        · exact ⟨expandQueue_extends P chain Side.A queueA vA vB [] spam cache calls, extends_refl _⟩
        · have := ih (step + 1)
            (expandQueue P chain Side.A queueA vA vB [] spam cache calls).nextQ queueB
            (expandQueue P chain Side.A queueA vA vB [] spam cache calls).myV vB
            (expandQueue P chain Side.A queueA vA vB [] spam cache calls).spam
            (expandQueue P chain Side.A queueA vA vB [] spam cache calls).cache
            (expandQueue P chain Side.A queueA vA vB [] spam cache calls).calls
          exact ⟨extends_trans
            (expandQueue_extends P chain Side.A queueA vA vB [] spam cache calls) this.1, this.2⟩

theorem stepLoop_keys_nodup (P : Providers) (chain : Chain) :
    ∀ (fuel step : Nat) (queueA queueB : List String) (vA vB : Visited)
      (spam : List SpamNote) (cache : Cache) (calls : Nat),
    (keys vA).Nodup → (keys vB).Nodup →
    (keys (stepLoop P chain fuel step queueA queueB vA vB spam cache calls).vA).Nodup ∧
    (keys (stepLoop P chain fuel step queueA queueB vA vB spam cache calls).vB).Nodup := by
  intro fuel
  induction fuel with
  | zero =>
    intro step queueA queueB vA vB spam cache calls hA hB
    rw [stepLoop_zero]
    exact ⟨hA, hB⟩
  | succ f ih =>
    intro step queueA queueB vA vB spam cache calls hA hB
    by_cases hp : step % 2 = 0
    · rw [stepLoop_succ_sideB hp]
      split
      · exact ⟨hA, expandQueue_keys_nodup P chain Side.B queueB vB vA [] spam cache calls hB⟩
      · split
        · exact ⟨hA, expandQueue_keys_nodup P chain Side.B queueB vB vA [] spam cache calls hB⟩
        · exact ih (step + 1) _ _ _ _ _ _ _ hA
            (expandQueue_keys_nodup P chain Side.B queueB vB vA [] spam cache calls hB)
    · rw [stepLoop_succ_sideA hp]
      split
      · exact ⟨expandQueue_keys_nodup P chain Side.A queueA vA vB [] spam cache calls hA, hB⟩
      · split
        · exact ⟨expandQueue_keys_nodup P chain Side.A queueA vA vB [] spam cache calls hA, hB⟩
        · exact ih (step + 1) _ _ _ _ _ _ _
            (expandQueue_keys_nodup P chain Side.A queueA vA vB [] spam cache calls hA) hB

/-- Depth invariant of the step loop: a meeting point found with `fuel`
remaining iterations, starting from frontiers of depth at most `dA`/`dB`,
has combined parent-chain depth at most `dA + dB + fuel` in the final
visited maps. -/
theorem stepLoop_depth (P : Providers) (chain : Chain) :
    ∀ (fuel step : Nat) (queueA queueB : List String) (vA vB : Visited)
      (spam : List SpamNote) (cache : Cache) (calls : Nat) (dA dB : Nat),
    (∀ a, a ∈ queueA → ∃ n, n ≤ dA ∧ ParentChain vA a n) →
    (∀ a r, vlookup vA a = some r → ∃ n, n ≤ dA ∧ ParentChain vA a n) →
    (∀ a, a ∈ queueB → ∃ n, n ≤ dB ∧ ParentChain vB a n) →
    (∀ a r, vlookup vB a = some r → ∃ n, n ≤ dB ∧ ParentChain vB a n) →
    ∀ m, (stepLoop P chain fuel step queueA queueB vA vB spam cache calls).meeting = some m →
      ∃ nA nB, ParentChain (stepLoop P chain fuel step queueA queueB vA vB spam cache calls).vA m nA ∧
        ParentChain (stepLoop P chain fuel step queueA queueB vA vB spam cache calls).vB m nB ∧
        nA + nB ≤ dA + dB + fuel := by
  intro fuel
  induction fuel with
  | zero =>
    intro step queueA queueB vA vB spam cache calls dA dB _ _ _ _ m hm
    rw [stepLoop_zero] at hm
    simp at hm
  | succ f ih =>
    intro step queueA queueB vA vB spam cache calls dA dB hqA hkA hqB hkB m hm
    by_cases hp : step % 2 = 0
    · rw [stepLoop_succ_sideB hp] at hm ⊢
      have heq := expandQueue_depth P chain Side.B queueB vB vA [] spam cache calls dB hqB
        (fun a r h => (hkB a r h).elim (fun n hn => ⟨n, Nat.le_succ_of_le hn.1, hn.2⟩))
        (by intro a ha; simp at ha)
      split at hm
      · next m' hmeet =>
        simp only [Option.some.injEq] at hm
        subst hm
        obtain ⟨⟨nB, hnB, hcB⟩, ⟨r2, hr2⟩⟩ := heq.2.2 m' hmeet
        obtain ⟨nA, hnA, hcA⟩ := hkA m' r2 hr2
        refine ⟨nA, nB, ?_, ?_, ?_⟩
        · simpa using hcA
        · simpa using hcB
        · omega
      · next hmeet =>
        split at hm
        · simp at hm
        · rw [if_neg (by assumption)]
          have := ih (step + 1) queueA
            (expandQueue P chain Side.B queueB vB vA [] spam cache calls).nextQ
            vA (expandQueue P chain Side.B queueB vB vA [] spam cache calls).myV
            (expandQueue P chain Side.B queueB vB vA [] spam cache calls).spam
            (expandQueue P chain Side.B queueB vB vA [] spam cache calls).cache
            (expandQueue P chain Side.B queueB vB vA [] spam cache calls).calls
            dA (dB + 1) hqA hkA heq.2.1 heq.1 m hm
          obtain ⟨nA, nB, hcA, hcB, hle⟩ := this
          exact ⟨nA, nB, hcA, hcB, by omega⟩
    · rw [stepLoop_succ_sideA hp] at hm ⊢
      have heq := expandQueue_depth P chain Side.A queueA vA vB [] spam cache calls dA hqA
        (fun a r h => (hkA a r h).elim (fun n hn => ⟨n, Nat.le_succ_of_le hn.1, hn.2⟩))
        (by intro a ha; simp at ha)
      split at hm
      · next m' hmeet =>
        simp only [Option.some.injEq] at hm
        subst hm
        obtain ⟨⟨nA, hnA, hcA⟩, ⟨r2, hr2⟩⟩ := heq.2.2 m' hmeet
        obtain ⟨nB, hnB, hcB⟩ := hkB m' r2 hr2
        refine ⟨nA, nB, ?_, ?_, ?_⟩
        · simpa using hcA
        · simpa using hcB
        · omega
      · next hmeet =>
        split at hm
        · simp at hm
        · rw [if_neg (by assumption)]
          have := ih (step + 1)
            (expandQueue P chain Side.A queueA vA vB [] spam cache calls).nextQ queueB
            (expandQueue P chain Side.A queueA vA vB [] spam cache calls).myV vB
            (expandQueue P chain Side.A queueA vA vB [] spam cache calls).spam
            (expandQueue P chain Side.A queueA vA vB [] spam cache calls).cache
            (expandQueue P chain Side.A queueA vA vB [] spam cache calls).calls
            (dA + 1) dB heq.2.1 heq.1 hqB hkB m hm
          obtain ⟨nA, nB, hcA, hcB, hle⟩ := this
          exact ⟨nA, nB, hcA, hcB, by omega⟩

/-- Spam invariant of the step loop, phrased against the A/B visited
maps: spam addresses stay distinct, every note corresponds to
`received_from` records on both sides carrying the note's transaction
references, and a meeting point's two records are never both
`received_from`. -/
theorem stepLoop_spam (P : Providers) (chain : Chain) :
    ∀ (fuel step : Nat) (queueA queueB : List String) (vA vB : Visited)
      (spam : List SpamNote) (cache : Cache) (calls : Nat),
    (spam.map SpamNote.address).Nodup →
    (∀ s, s ∈ spam → ∃ rA rB, vlookup vA s.address = some rA ∧
       vlookup vB s.address = some rB ∧
       rA.role = some Role.received_from ∧ rB.role = some Role.received_from ∧
       s.txA = rA.tx ∧ s.txB = rB.tx) →
    (((stepLoop P chain fuel step queueA queueB vA vB spam cache calls).spam.map SpamNote.address).Nodup ∧
     (∀ s, s ∈ (stepLoop P chain fuel step queueA queueB vA vB spam cache calls).spam →
        ∃ rA rB, vlookup (stepLoop P chain fuel step queueA queueB vA vB spam cache calls).vA s.address = some rA ∧
          vlookup (stepLoop P chain fuel step queueA queueB vA vB spam cache calls).vB s.address = some rB ∧
          rA.role = some Role.received_from ∧ rB.role = some Role.received_from ∧
          s.txA = rA.tx ∧ s.txB = rB.tx) ∧
     (∀ m, (stepLoop P chain fuel step queueA queueB vA vB spam cache calls).meeting = some m →
        ∃ rA rB, vlookup (stepLoop P chain fuel step queueA queueB vA vB spam cache calls).vA m = some rA ∧
          vlookup (stepLoop P chain fuel step queueA queueB vA vB spam cache calls).vB m = some rB ∧
          ¬(rA.role = some Role.received_from ∧ rB.role = some Role.received_from))) := by
  intro fuel
  induction fuel with
  | zero =>
    intro step queueA queueB vA vB spam cache calls hnd hsp
    rw [stepLoop_zero]
    exact ⟨hnd, hsp, by intro m hm; simp at hm⟩
  | succ f ih =>
    intro step queueA queueB vA vB spam cache calls hnd hsp
    by_cases hp : step % 2 = 0
    · rw [stepLoop_succ_sideB hp]
      have hin : ∀ s, s ∈ spam → ∃ rm ro2, vlookup vB s.address = some rm ∧
          vlookup vA s.address = some ro2 ∧
          rm.role = some Role.received_from ∧ ro2.role = some Role.received_from ∧
          (if Side.B = Side.A then s.txA = rm.tx ∧ s.txB = ro2.tx
           else s.txA = ro2.tx ∧ s.txB = rm.tx) := by
        intro s hs
        obtain ⟨rA, rB, h1, h2, h3, h4, h5, h6⟩ := hsp s hs
        exact ⟨rB, rA, h2, h1, h4, h3, by simp [h5, h6]⟩
      have heq := expandQueue_spam P chain Side.B queueB vB vA [] spam cache calls hnd hin
      have hout : ∀ s, s ∈ (expandQueue P chain Side.B queueB vB vA [] spam cache calls).spam →
          ∃ rA rB, vlookup vA s.address = some rA ∧
            vlookup (expandQueue P chain Side.B queueB vB vA [] spam cache calls).myV s.address = some rB ∧
            rA.role = some Role.received_from ∧ rB.role = some Role.received_from ∧
            s.txA = rA.tx ∧ s.txB = rB.tx := by
        intro s hs
        obtain ⟨rm, ro2, h1, h2, h3, h4, h5⟩ := heq.2.1 s hs
        rw [if_neg (by decide)] at h5
        exact ⟨ro2, rm, h2, h1, h4, h3, h5.1, h5.2⟩
      split
      · next m' hmeet =>
        refine ⟨heq.1, hout, ?_⟩
        intro m'' hm''
        simp only [Option.some.injEq] at hm''
        subst hm''
        obtain ⟨rm, ro2, h1, h2, hn⟩ := heq.2.2 m' hmeet
        exact ⟨ro2, rm, h2, h1, fun hb => hn ⟨hb.2, hb.1⟩⟩
      · split
        · exact ⟨heq.1, hout, by intro m hm; simp at hm⟩
        · exact ih (step + 1) _ _ _ _ _ _ _ heq.1 hout
    · rw [stepLoop_succ_sideA hp]
      have hin : ∀ s, s ∈ spam → ∃ rm ro2, vlookup vA s.address = some rm ∧
          vlookup vB s.address = some ro2 ∧
          rm.role = some Role.received_from ∧ ro2.role = some Role.received_from ∧
          (if Side.A = Side.A then s.txA = rm.tx ∧ s.txB = ro2.tx
           else s.txA = ro2.tx ∧ s.txB = rm.tx) := by
        intro s hs
        obtain ⟨rA, rB, h1, h2, h3, h4, h5, h6⟩ := hsp s hs
        exact ⟨rA, rB, h1, h2, h3, h4, by simp [h5, h6]⟩
      have heq := expandQueue_spam P chain Side.A queueA vA vB [] spam cache calls hnd hin
      have hout : ∀ s, s ∈ (expandQueue P chain Side.A queueA vA vB [] spam cache calls).spam →
          ∃ rA rB, vlookup (expandQueue P chain Side.A queueA vA vB [] spam cache calls).myV s.address = some rA ∧
            vlookup vB s.address = some rB ∧
            rA.role = some Role.received_from ∧ rB.role = some Role.received_from ∧
            s.txA = rA.tx ∧ s.txB = rB.tx := by
        intro s hs
        obtain ⟨rm, ro2, h1, h2, h3, h4, h5⟩ := heq.2.1 s hs
        rw [if_pos rfl] at h5
        exact ⟨rm, ro2, h1, h2, h3, h4, h5.1, h5.2⟩
      split
      · next m' hmeet =>
        refine ⟨heq.1, hout, ?_⟩
        intro m'' hm''
        simp only [Option.some.injEq] at hm''
        subst hm''
        obtain ⟨rm, ro2, h1, h2, hn⟩ := heq.2.2 m' hmeet
        exact ⟨rm, ro2, h1, h2, hn⟩
      · split
        · exact ⟨heq.1, hout, by intro m hm; simp at hm⟩
        · exact ih (step + 1) _ _ _ _ _ _ _ heq.1 hout

/-!  Cache behaviour: hit/miss equations, monotonic growth, and the
simulation lemma behind cache idempotence. -/

theorem extends_append {β : Type} (l l2 : List (String × β)) : Extends l (l ++ l2) :=
  fun _ _ h => vlookup_append_of_some h

theorem getCached_hit {P : Providers} {cache : Cache} {address : String} {chain : Chain}
    {v : ConnMap} (h : vlookup cache address = some v) :
    getCachedTransfers P cache address chain = ⟨v, cache, false⟩ := by
  simp [getCachedTransfers, h]

theorem getCached_miss {P : Providers} {cache : Cache} {address : String} {chain : Chain}
    (h : vlookup cache address = none) :
    getCachedTransfers P cache address chain =
      ⟨fetchForChain P address chain,
       mapSet cache address (fetchForChain P address chain), true⟩ := by
  simp [getCachedTransfers, h]

theorem getCached_cache_extends (P : Providers) (cache : Cache) (address : String)
    (chain : Chain) : Extends cache (getCachedTransfers P cache address chain).cache := by
  cases h : vlookup cache address with
  | some v =>
    rw [getCached_hit h]
    exact extends_refl _
  | none =>
    rw [getCached_miss h, mapSet_of_none _ h]
    exact extends_append _ _

theorem getCached_self_mem (P : Providers) (cache : Cache) (address : String) (chain : Chain) :
    vlookup (getCachedTransfers P cache address chain).cache address =
      some (getCachedTransfers P cache address chain).conns := by
  cases h : vlookup cache address with
  | some v =>
    rw [getCached_hit h]
    exact h
  | none =>
    rw [getCached_miss h, mapSet_of_none _ h]
    rw [vlookup_append_of_none h]
    simp

theorem getCached_sim {P : Providers} {cache cF : Cache} {address : String} {chain : Chain}
    (hext : Extends (getCachedTransfers P cache address chain).cache cF) :
    getCachedTransfers P cF address chain =
      ⟨(getCachedTransfers P cache address chain).conns, cF, false⟩ :=
  getCached_hit (hext _ _ (getCached_self_mem P cache address chain))

theorem expandQueue_cache_extends (P : Providers) (chain : Chain) (side : Side) :
    ∀ (queue : List String) (myV otherV : Visited) (nextQ : List String)
      (spam : List SpamNote) (cache : Cache) (calls : Nat),
    Extends cache (expandQueue P chain side queue myV otherV nextQ spam cache calls).cache := by
  intro queue
  induction queue with
  | nil =>
    intro myV otherV nextQ spam cache calls
    rw [expandQueue_nil]
    exact extends_refl _
  | cons curr restQ ih =>
    intro myV otherV nextQ spam cache calls
    cases hpo : (processNeighbors chain side curr (getCachedTransfers P cache curr chain).conns
        myV otherV nextQ spam).meeting with
    | some m =>
      rw [expandQueue_cons_meeting hpo]
      exact getCached_cache_extends P cache curr chain
    | none =>
      rw [expandQueue_cons_continue hpo]
      exact extends_trans (getCached_cache_extends P cache curr chain) (ih _ _ _ _ _ _)

theorem expandQueue_sim (P : Providers) (chain : Chain) (side : Side) :
    ∀ (queue : List String) (myV otherV : Visited) (nextQ : List String)
      (spam : List SpamNote) (cache : Cache) (calls : Nat) (cF : Cache) (calls2 : Nat),
    Extends (expandQueue P chain side queue myV otherV nextQ spam cache calls).cache cF →
    expandQueue P chain side queue myV otherV nextQ spam cF calls2 =
      ⟨(expandQueue P chain side queue myV otherV nextQ spam cache calls).myV,
       (expandQueue P chain side queue myV otherV nextQ spam cache calls).nextQ,
       (expandQueue P chain side queue myV otherV nextQ spam cache calls).spam,
       (expandQueue P chain side queue myV otherV nextQ spam cache calls).meeting,
       cF, calls2⟩ := by
  intro queue
  induction queue with
  | nil =>
    intro myV otherV nextQ spam cache calls cF calls2 _
    rw [expandQueue_nil, expandQueue_nil]
  | cons curr restQ ih =>
    intro myV otherV nextQ spam cache calls cF calls2 hext
    cases hpo : (processNeighbors chain side curr (getCachedTransfers P cache curr chain).conns
        myV otherV nextQ spam).meeting with
    | some m =>
      rw [expandQueue_cons_meeting hpo] at hext ⊢
      have hext1 : Extends (getCachedTransfers P cache curr chain).cache cF := hext
      have hfo2 := getCached_sim hext1
      have hpo2 : (processNeighbors chain side curr (getCachedTransfers P cF curr chain).conns
          myV otherV nextQ spam).meeting = some m := by 
        rw [hfo2]
        exact hpo
      rw [expandQueue_cons_meeting hpo2, hfo2]
      simp
    | none =>
      rw [expandQueue_cons_continue hpo] at hext ⊢
      have hext1 : Extends (getCachedTransfers P cache curr chain).cache cF :=
        extends_trans (expandQueue_cache_extends P chain side restQ _ _ _ _ _ _) hext
      have hfo2 := getCached_sim hext1
      have hpo2 : (processNeighbors chain side curr (getCachedTransfers P cF curr chain).conns
          myV otherV nextQ spam).meeting = none := by
        rw [hfo2]
        exact hpo
      rw [expandQueue_cons_continue hpo2, hfo2]
      have := ih _ otherV _ _ _ _ cF
        (calls2 + (if (⟨(getCachedTransfers P cache curr chain).conns, cF, false⟩ : CacheOut).called then 1 else 0)) hext
      simpa using this

theorem stepLoop_cache_extends (P : Providers) (chain : Chain) :
    ∀ (fuel step : Nat) (queueA queueB : List String) (vA vB : Visited)
      (spam : List SpamNote) (cache : Cache) (calls : Nat),
    Extends cache (stepLoop P chain fuel step queueA queueB vA vB spam cache calls).cache := by
  intro fuel
  induction fuel with
  | zero =>
    intro step queueA queueB vA vB spam cache calls
    rw [stepLoop_zero]
    exact extends_refl _
  | succ f ih =>
    intro step queueA queueB vA vB spam cache calls
    by_cases hp : step % 2 = 0
    · rw [stepLoop_succ_sideB hp]
      split
      · exact expandQueue_cache_extends P chain Side.B queueB vB vA [] spam cache calls
      · split
        · exact expandQueue_cache_extends P chain Side.B queueB vB vA [] spam cache calls
        · exact extends_trans
            (expandQueue_cache_extends P chain Side.B queueB vB vA [] spam cache calls)
            (ih (step + 1) _ _ _ _ _ _ _)
    · rw [stepLoop_succ_sideA hp]
      split
      · exact expandQueue_cache_extends P chain Side.A queueA vA vB [] spam cache calls
      · split
        · exact expandQueue_cache_extends P chain Side.A queueA vA vB [] spam cache calls
        · exact extends_trans
            (expandQueue_cache_extends P chain Side.A queueA vA vB [] spam cache calls)
            (ih (step + 1) _ _ _ _ _ _ _)

/-- Simulation lemma for the step loop: re-running it from any cache
that extends the first run's final cache reproduces the same search
state, leaves that cache unchanged, and performs no Transfer Source
calls beyond the given baseline. -/
theorem stepLoop_sim (P : Providers) (chain : Chain) :
    ∀ (fuel step : Nat) (queueA queueB : List String) (vA vB : Visited)
      (spam : List SpamNote) (cache : Cache) (calls : Nat) (cF : Cache) (calls2 : Nat),
    Extends (stepLoop P chain fuel step queueA queueB vA vB spam cache calls).cache cF →
    stepLoop P chain fuel step queueA queueB vA vB spam cF calls2 =
      ⟨(stepLoop P chain fuel step queueA queueB vA vB spam cache calls).vA,
       (stepLoop P chain fuel step queueA queueB vA vB spam cache calls).vB,
       (stepLoop P chain fuel step queueA queueB vA vB spam cache calls).spam,
       (stepLoop P chain fuel step queueA queueB vA vB spam cache calls).meeting,
       cF, calls2⟩ := by
  intro fuel
  induction fuel with
  | zero =>
    intro step queueA queueB vA vB spam cache calls cF calls2 _
    rw [stepLoop_zero, stepLoop_zero]
  | succ f ih =>
    intro step queueA queueB vA vB spam cache calls cF calls2 hext
    by_cases hp : step % 2 = 0
    · rw [stepLoop_succ_sideB hp] at hext ⊢
      rw [stepLoop_succ_sideB hp]
      cases heo : (expandQueue P chain Side.B queueB vB vA [] spam cache calls).meeting with
      | some m =>
        rw [heo] at hext
        simp only [heo] at hext ⊢
        have hext1 : Extends (expandQueue P chain Side.B queueB vB vA [] spam cache calls).cache cF := hext
        have heo2 := expandQueue_sim P chain Side.B queueB vB vA [] spam cache calls cF calls2 hext1
        rw [heo2]
        simp [heo]
      | none =>
        rw [heo] at hext
        simp only [heo] at hext ⊢
        by_cases hq : queueA = [] ∧ (expandQueue P chain Side.B queueB vB vA [] spam cache calls).nextQ = []
        · rw [if_pos hq] at hext ⊢
          have hext1 : Extends (expandQueue P chain Side.B queueB vB vA [] spam cache calls).cache cF := hext
          have heo2 := expandQueue_sim P chain Side.B queueB vB vA [] spam cache calls cF calls2 hext1
          rw [heo2]
          simp only [heo]
          rw [if_pos hq]
        · rw [if_neg hq] at hext ⊢
          have hext1 : Extends (expandQueue P chain Side.B queueB vB vA [] spam cache calls).cache cF :=
            extends_trans (stepLoop_cache_extends P chain f (step + 1) _ _ _ _ _ _ _) hext
          have heo2 := expandQueue_sim P chain Side.B queueB vB vA [] spam cache calls cF calls2 hext1
          rw [heo2]
          simp only [heo]
          rw [if_neg hq]
          exact ih (step + 1) _ _ _ _ _ _ _ cF calls2 hext
    · rw [stepLoop_succ_sideA hp] at hext ⊢
      rw [stepLoop_succ_sideA hp]
      cases heo : (expandQueue P chain Side.A queueA vA vB [] spam cache calls).meeting with
      | some m =>
        rw [heo] at hext
        simp only [heo] at hext ⊢
        have hext1 : Extends (expandQueue P chain Side.A queueA vA vB [] spam cache calls).cache cF := hext
        have heo2 := expandQueue_sim P chain Side.A queueA vA vB [] spam cache calls cF calls2 hext1
        rw [heo2]
        simp [heo]
      | none =>
        rw [heo] at hext
        simp only [heo] at hext ⊢
        by_cases hq : (expandQueue P chain Side.A queueA vA vB [] spam cache calls).nextQ = [] ∧ queueB = []
        · rw [if_pos hq] at hext ⊢
          have hext1 : Extends (expandQueue P chain Side.A queueA vA vB [] spam cache calls).cache cF := hext
          have heo2 := expandQueue_sim P chain Side.A queueA vA vB [] spam cache calls cF calls2 hext1
          rw [heo2]
          simp only [heo]
          rw [if_pos hq]
        · rw [if_neg hq] at hext ⊢
          have hext1 : Extends (expandQueue P chain Side.A queueA vA vB [] spam cache calls).cache cF :=
            extends_trans (stepLoop_cache_extends P chain f (step + 1) _ _ _ _ _ _ _) hext
          have heo2 := expandQueue_sim P chain Side.A queueA vA vB [] spam cache calls cF calls2 hext1
          rw [heo2]
          simp only [heo]
          rw [if_neg hq]
          exact ih (step + 1) _ _ _ _ _ _ _ cF calls2 hext

/-!  Correspondence between the `index.js` engine and the variant
engine: branch-rewrite lemmas for the variant, canonicalization
preservation, and the equivalence proof. -/

theorem vprocessNeighbors_nil (side : Side) (curr : String)
    (myV otherV : Visited) (nextQ : List String) (spam : List SpamNote) :
    vprocessNeighbors side curr [] myV otherV nextQ spam = ⟨myV, nextQ, spam, none⟩ := rfl

theorem vprocessNeighbors_cons_visited {side : Side} {curr neighbor : String}
    {info : ConnInfo} {rest : List (String × ConnInfo)} {myV otherV : Visited}
    {nextQ : List String} {spam : List SpamNote} {r : VisitedRecord}
    (h1 : vlookup myV neighbor = some r) :
    vprocessNeighbors side curr ((neighbor, info) :: rest) myV otherV nextQ spam =
      vprocessNeighbors side curr rest myV otherV nextQ spam := by
  simp [vprocessNeighbors, h1]

theorem vprocessNeighbors_cons_fresh_nocollide {side : Side} {curr neighbor : String}
    {info : ConnInfo} {rest : List (String × ConnInfo)} {myV otherV : Visited}
    {nextQ : List String} {spam : List SpamNote}
    (h1 : vlookup myV neighbor = none) (h2 : vlookup otherV neighbor = none) :
    vprocessNeighbors side curr ((neighbor, info) :: rest) myV otherV nextQ spam =
      vprocessNeighbors side curr rest
        ((neighbor, (⟨some curr, some info.tx, some info.role⟩ : VisitedRecord)) :: myV)
        otherV (nextQ ++ [neighbor]) spam := by
  simp [vprocessNeighbors, h1, h2]

theorem vprocessNeighbors_cons_collide {side : Side} {curr neighbor : String}
    {info : ConnInfo} {rest : List (String × ConnInfo)} {myV otherV : Visited}
    {nextQ : List String} {spam : List SpamNote} {ro : VisitedRecord}
    (h1 : vlookup myV neighbor = none) (h2 : vlookup otherV neighbor = some ro) :
    vprocessNeighbors side curr ((neighbor, info) :: rest) myV otherV nextQ spam =
      (if info.role = Role.received_from ∧ ro.role = some Role.received_from then
        vprocessNeighbors side curr rest
          ((neighbor, (⟨some curr, some info.tx, some info.role⟩ : VisitedRecord)) :: myV)
          otherV (nextQ ++ [neighbor])
          (spam ++ [if side = Side.A
            then (⟨neighbor, some info.tx, ro.tx⟩ : SpamNote)
            else (⟨neighbor, ro.tx, some info.tx⟩ : SpamNote)])
      else
        ⟨(neighbor, (⟨some curr, some info.tx, some info.role⟩ : VisitedRecord)) :: myV,
          nextQ ++ [neighbor], spam, some neighbor⟩) := by
  cases side <;> simp [vprocessNeighbors, h1, h2, and_comm]

theorem processNeighbors_eq_vprocess (chain : Chain) (side : Side) (curr : String) :
    ∀ (neighbors : List (String × ConnInfo)) (myV otherV : Visited)
      (nextQ : List String) (spam : List SpamNote),
    ConnsCanon chain neighbors →
    processNeighbors chain side curr neighbors myV otherV nextQ spam =
      vprocessNeighbors side curr neighbors myV otherV nextQ spam := by
  intro neighbors
  induction neighbors with
  | nil =>
    intro myV otherV nextQ spam _
    rw [processNeighbors_nil, vprocessNeighbors_nil]
  | cons hd rest ih =>
    intro myV otherV nextQ spam hc
    obtain ⟨neighbor, info⟩ := hd
    have hkey : canonKey chain neighbor = neighbor := hc ⟨neighbor, info⟩ (List.mem_cons_self _ _)
    have hrest : ConnsCanon chain rest := fun p hp => hc p (List.mem_cons_of_mem _ hp)
    cases h1 : vlookup myV neighbor with
    | some r =>
      rw [processNeighbors_cons_visited (show vlookup myV (canonKey chain neighbor) = some r by
            rw [hkey]; exact h1),
          vprocessNeighbors_cons_visited h1]
      exact ih myV otherV nextQ spam hrest
    | none =>
      cases h2 : vlookup otherV neighbor with
      | none =>
        rw [processNeighbors_cons_fresh_nocollide (show vlookup myV (canonKey chain neighbor) = none by
              rw [hkey]; exact h1)
            (show vlookup otherV (canonKey chain neighbor) = none by rw [hkey]; exact h2),
            vprocessNeighbors_cons_fresh_nocollide h1 h2, hkey]
        exact ih _ otherV _ spam hrest
      | some ro =>
        rw [processNeighbors_cons_collide (show vlookup myV (canonKey chain neighbor) = none by
              rw [hkey]; exact h1)
            (show vlookup otherV (canonKey chain neighbor) = some ro by rw [hkey]; exact h2),
            vprocessNeighbors_cons_collide h1 h2, hkey]
        split
        · exact ih _ otherV _ _ hrest
        · rfl

theorem getCached_canon {P : Providers} {chain : Chain} {cache : Cache} {address : String}
    (hc : CacheCanon chain cache)
    (hf : ∀ a, ConnsCanon chain (fetchForChain P a chain)) :
    ConnsCanon chain (getCachedTransfers P cache address chain).conns ∧
    CacheCanon chain (getCachedTransfers P cache address chain).cache := by
  cases h : vlookup cache address with
  | some v =>
    rw [getCached_hit h]
    exact ⟨hc _ (vlookup_mem h), hc⟩
  | none =>
    rw [getCached_miss h]
    refine ⟨hf address, ?_⟩
    intro p hp
    rcases mem_mapSet hp with hp | hp
    · subst hp
      exact hf address
    · exact hc p hp

theorem vexpandQueue_nil (P : Providers) (chain : Chain) (side : Side)
    (myV otherV : Visited) (nextQ : List String) (spam : List SpamNote)
    (cache : Cache) (calls : Nat) :
    vexpandQueue P chain side [] myV otherV nextQ spam cache calls =
      ⟨myV, nextQ, spam, none, cache, calls⟩ := rfl

theorem vexpandQueue_cons_meeting {P : Providers} {chain : Chain} {side : Side}
    {curr : String} {restQ : List String} {myV otherV : Visited}
    {nextQ : List String} {spam : List SpamNote} {cache : Cache} {calls : Nat} {m : String}
    (h : (vprocessNeighbors side curr (getCachedTransfers P cache curr chain).conns
        myV otherV nextQ spam).meeting = some m) :
    vexpandQueue P chain side (curr :: restQ) myV otherV nextQ spam cache calls =
      ⟨(vprocessNeighbors side curr (getCachedTransfers P cache curr chain).conns
          myV otherV nextQ spam).myV,
       (vprocessNeighbors side curr (getCachedTransfers P cache curr chain).conns
          myV otherV nextQ spam).nextQ,
       (vprocessNeighbors side curr (getCachedTransfers P cache curr chain).conns
          myV otherV nextQ spam).spam,
       some m,
       (getCachedTransfers P cache curr chain).cache,
       calls + (if (getCachedTransfers P cache curr chain).called then 1 else 0)⟩ := by
  simp [vexpandQueue, h]

theorem vexpandQueue_cons_continue {P : Providers} {chain : Chain} {side : Side}
    {curr : String} {restQ : List String} {myV otherV : Visited}
    {nextQ : List String} {spam : List SpamNote} {cache : Cache} {calls : Nat}
    (h : (vprocessNeighbors side curr (getCachedTransfers P cache curr chain).conns
        myV otherV nextQ spam).meeting = none) :
    vexpandQueue P chain side (curr :: restQ) myV otherV nextQ spam cache calls =
      vexpandQueue P chain side restQ
        (vprocessNeighbors side curr (getCachedTransfers P cache curr chain).conns
          myV otherV nextQ spam).myV
        otherV
        (vprocessNeighbors side curr (getCachedTransfers P cache curr chain).conns
          myV otherV nextQ spam).nextQ
        (vprocessNeighbors side curr (getCachedTransfers P cache curr chain).conns
          myV otherV nextQ spam).spam
        (getCachedTransfers P cache curr chain).cache
        (calls + (if (getCachedTransfers P cache curr chain).called then 1 else 0)) := by
  simp [vexpandQueue, h]

theorem expandQueue_eq_vexpand (P : Providers) (chain : Chain) (side : Side) :
    ∀ (queue : List String) (myV otherV : Visited) (nextQ : List String)
      (spam : List SpamNote) (cache : Cache) (calls : Nat),
    CacheCanon chain cache →
    (∀ a, ConnsCanon chain (fetchForChain P a chain)) →
    (expandQueue P chain side queue myV otherV nextQ spam cache calls =
      vexpandQueue P chain side queue myV otherV nextQ spam cache calls ∧
     CacheCanon chain (expandQueue P chain side queue myV otherV nextQ spam cache calls).cache) := by
  intro queue
  induction queue with
  | nil =>
    intro myV otherV nextQ spam cache calls hc _
    rw [expandQueue_nil, vexpandQueue_nil]
    exact ⟨rfl, hc⟩
  | cons curr restQ ih =>
    intro myV otherV nextQ spam cache calls hc hf
    have hcc := @getCached_canon P chain cache curr hc hf
    have hpe := processNeighbors_eq_vprocess chain side curr
      (getCachedTransfers P cache curr chain).conns myV otherV nextQ spam hcc.1
    cases hpo : (processNeighbors chain side curr (getCachedTransfers P cache curr chain).conns
        myV otherV nextQ spam).meeting with
    | some m =>
      rw [expandQueue_cons_meeting hpo,
          vexpandQueue_cons_meeting (by rw [← hpe]; exact hpo), hpe]
      exact ⟨rfl, hcc.2⟩
    | none =>
      rw [expandQueue_cons_continue hpo,
          vexpandQueue_cons_continue (by rw [← hpe]; exact hpo), hpe]
      exact ih _ otherV _ _ _ _ hcc.2 hf

theorem vstepLoop_zero (P : Providers) (chain : Chain) (step : Nat)
    (queueA queueB : List String) (vA vB : Visited) (spam : List SpamNote)
    (cache : Cache) (calls : Nat) :
    vstepLoop P chain 0 step queueA queueB vA vB spam cache calls =
      ⟨vA, vB, spam, none, cache, calls⟩ := rfl

theorem vstepLoop_succ_sideA {P : Providers} {chain : Chain} {fuel step : Nat}
    {queueA queueB : List String} {vA vB : Visited} {spam : List SpamNote}
    {cache : Cache} {calls : Nat} (hp : step % 2 ≠ 0) :
    vstepLoop P chain (fuel + 1) step queueA queueB vA vB spam cache calls =
      (match (vexpandQueue P chain Side.A queueA vA vB [] spam cache calls).meeting with
       | some m =>
         ⟨(vexpandQueue P chain Side.A queueA vA vB [] spam cache calls).myV, vB,
          (vexpandQueue P chain Side.A queueA vA vB [] spam cache calls).spam, some m,
          (vexpandQueue P chain Side.A queueA vA vB [] spam cache calls).cache,
          (vexpandQueue P chain Side.A queueA vA vB [] spam cache calls).calls⟩
       | none =>
         if (vexpandQueue P chain Side.A queueA vA vB [] spam cache calls).nextQ = [] ∧ queueB = [] then
           ⟨(vexpandQueue P chain Side.A queueA vA vB [] spam cache calls).myV, vB,
            (vexpandQueue P chain Side.A queueA vA vB [] spam cache calls).spam, none,
            (vexpandQueue P chain Side.A queueA vA vB [] spam cache calls).cache,
            (vexpandQueue P chain Side.A queueA vA vB [] spam cache calls).calls⟩
         else
           vstepLoop P chain fuel (step + 1)
             (vexpandQueue P chain Side.A queueA vA vB [] spam cache calls).nextQ queueB
             (vexpandQueue P chain Side.A queueA vA vB [] spam cache calls).myV vB
             (vexpandQueue P chain Side.A queueA vA vB [] spam cache calls).spam
             (vexpandQueue P chain Side.A queueA vA vB [] spam cache calls).cache
             (vexpandQueue P chain Side.A queueA vA vB [] spam cache calls).calls) := by
  simp [vstepLoop, hp]

theorem vstepLoop_succ_sideB {P : Providers} {chain : Chain} {fuel step : Nat}
    {queueA queueB : List String} {vA vB : Visited} {spam : List SpamNote}
    {cache : Cache} {calls : Nat} (hp : step % 2 = 0) :
    vstepLoop P chain (fuel + 1) step queueA queueB vA vB spam cache calls =
      (match (vexpandQueue P chain Side.B queueB vB vA [] spam cache calls).meeting with
       | some m =>
         ⟨vA, (vexpandQueue P chain Side.B queueB vB vA [] spam cache calls).myV,
          (vexpandQueue P chain Side.B queueB vB vA [] spam cache calls).spam, some m,
          (vexpandQueue P chain Side.B queueB vB vA [] spam cache calls).cache,
          (vexpandQueue P chain Side.B queueB vB vA [] spam cache calls).calls⟩
       | none =>
         if queueA = [] ∧ (vexpandQueue P chain Side.B queueB vB vA [] spam cache calls).nextQ = [] then
           ⟨vA, (vexpandQueue P chain Side.B queueB vB vA [] spam cache calls).myV,
            (vexpandQueue P chain Side.B queueB vB vA [] spam cache calls).spam, none,
            (vexpandQueue P chain Side.B queueB vB vA [] spam cache calls).cache,
            (vexpandQueue P chain Side.B queueB vB vA [] spam cache calls).calls⟩
         else
           vstepLoop P chain fuel (step + 1)
             queueA (vexpandQueue P chain Side.B queueB vB vA [] spam cache calls).nextQ
             vA (vexpandQueue P chain Side.B queueB vB vA [] spam cache calls).myV
             (vexpandQueue P chain Side.B queueB vB vA [] spam cache calls).spam
             (vexpandQueue P chain Side.B queueB vB vA [] spam cache calls).cache
             (vexpandQueue P chain Side.B queueB vB vA [] spam cache calls).calls) := by
  simp [vstepLoop, hp]

theorem stepLoop_eq_vstep (P : Providers) (chain : Chain) :
    ∀ (fuel step : Nat) (queueA queueB : List String) (vA vB : Visited)
      (spam : List SpamNote) (cache : Cache) (calls : Nat),
    CacheCanon chain cache →
    (∀ a, ConnsCanon chain (fetchForChain P a chain)) →
    stepLoop P chain fuel step queueA queueB vA vB spam cache calls =
      vstepLoop P chain fuel step queueA queueB vA vB spam cache calls := by
  intro fuel
  induction fuel with
  | zero =>
    intro step queueA queueB vA vB spam cache calls _ _
    rw [stepLoop_zero, vstepLoop_zero]
  | succ f ih =>
    intro step queueA queueB vA vB spam cache calls hc hf
    by_cases hp : step % 2 = 0
    · rw [stepLoop_succ_sideB hp, vstepLoop_succ_sideB hp]
      have hee := expandQueue_eq_vexpand P chain Side.B queueB vB vA [] spam cache calls hc hf
      rw [← hee.1]
      cases heo : (expandQueue P chain Side.B queueB vB vA [] spam cache calls).meeting with
      | some m => rfl
      | none =>
        by_cases hq : queueA = [] ∧ (expandQueue P chain Side.B queueB vB vA [] spam cache calls).nextQ = []
        · rw [if_pos hq, if_pos hq]
        · rw [if_neg hq, if_neg hq]
          exact ih (step + 1) _ _ _ _ _ _ _ hee.2 hf
    · rw [stepLoop_succ_sideA hp, vstepLoop_succ_sideA hp]
      have hee := expandQueue_eq_vexpand P chain Side.A queueA vA vB [] spam cache calls hc hf
      rw [← hee.1]
      cases heo : (expandQueue P chain Side.A queueA vA vB [] spam cache calls).meeting with
      | some m => rfl
      | none =>
        by_cases hq : (expandQueue P chain Side.A queueA vA vB [] spam cache calls).nextQ = [] ∧ queueB = []
        · rw [if_pos hq, if_pos hq]
        · rw [if_neg hq, if_neg hq]
          exact ih (step + 1) _ _ _ _ _ _ _ hee.2 hf

/-!  The claims. -/

/-- C2: For every reconstructed evidence step, a record with role
`SENT_TO` renders parent → current and a record with role
`RECEIVED_FROM` renders current → parent; the orientation rule is
identical on the A-side and B-side walks (the B-side walk is exactly the
reverse of the A-side walk on the same map); and on the spec's example
(`A` sent to `X`, `B` received from `X`, budget 2) the handler reports
meeting point `X` with evidence chain `["A → X", "X → B"]` and no spam
notes. -/
theorem claim2_orientation :
    (∀ (v : Visited) (base : String) (fuel : Nat) (curr : String),
      walkToB v base fuel curr = (walkToA v base fuel curr).reverse) ∧
    (∀ (v : Visited) (base : String) (fuel : Nat) (curr : String) (r : VisitedRecord) (p : String),
      vlookup v curr = some r → r.parent = some p →
      walkToB v base (fuel + 1) curr =
        (⟨shorten (if r.role = some Role.sent_to then p else curr) ++ " → " ++
            shorten (if r.role = some Role.sent_to then curr else p),
          base ++ jsStr r.tx⟩ : PathStep) :: walkToB v base fuel p) ∧
    ((checkRelationship exProvAB exValidatorSol [] "A" "B" (HopsInput.num 2)).1 =
      ⟨"Connection Found (2 Hops)",
       [⟨"A → X", "https://solscan.io/tx/t1"⟩, ⟨"X → B", "https://solscan.io/tx/t2"⟩],
       []⟩) := by
  refine ⟨walkToB_eq_reverse_walkToA, ?_, by decide⟩
  intro v base fuel curr r p hl hp
  simp [walkToB, hl, hp]

/-- C2 witness: the B-side walk at a concrete `received_from` record
places the current node as sender and the parent as receiver. -/
theorem claim2_witness :
    vlookup [("X", (⟨some "B", some "t2", some Role.received_from⟩ : VisitedRecord))] "X" =
      some (⟨some "B", some "t2", some Role.received_from⟩ : VisitedRecord) ∧
    (⟨some "B", some "t2", some Role.received_from⟩ : VisitedRecord).parent = some "B" ∧
    walkToB [("X", (⟨some "B", some "t2", some Role.received_from⟩ : VisitedRecord))] "b/" (0 + 1) "X" =
      (⟨shorten (if (⟨some "B", some "t2", some Role.received_from⟩ : VisitedRecord).role = some Role.sent_to then "B" else "X") ++ " → " ++
          shorten (if (⟨some "B", some "t2", some Role.received_from⟩ : VisitedRecord).role = some Role.sent_to then "X" else "B"),
        "b/" ++ jsStr (⟨some "B", some "t2", some Role.received_from⟩ : VisitedRecord).tx⟩ : PathStep) ::
        walkToB [("X", (⟨some "B", some "t2", some Role.received_from⟩ : VisitedRecord))] "b/" 0 "B" :=
  ⟨by simp, rfl,
   claim2_orientation.2.1 _ "b/" 0 "X" _ "B" (by simp) rfl⟩

/-- C3 counterexample: the claim says every hop budget ≤ 0 falls back to
the default 2, but `parseInt(maxHops) || 2` keeps negative numbers (they
are truthy): with budget −1 the loop runs zero steps and the search on
the spec example reports no connection, unlike the default run. -/
theorem claim3_counterexample :
    resolveHops (HopsInput.num (-1)) = -1 ∧
    (checkRelationship exProvAB exValidatorSol [] "A" "B" (HopsInput.num (-1))).1 =
      ⟨"No significant relationship found.", [], []⟩ ∧
    (checkRelationship exProvAB exValidatorSol [] "A" "B" HopsInput.absent).1 ≠
      (checkRelationship exProvAB exValidatorSol [] "A" "B" (HopsInput.num (-1))).1 := by
  refine ⟨by decide, by decide, by decide⟩

/-- C3 amended: an unset, non-numeric, or zero hop budget resolves to
the default 2; a negative budget is kept as-is, so the step loop runs
zero iterations and the handler reports the not-found conclusion. -/
theorem claim3_amended :
    resolveHops HopsInput.absent = 2 ∧
    resolveHops HopsInput.nonNumeric = 2 ∧
    resolveHops (HopsInput.num 0) = 2 ∧
    (∀ n : Int, n < 0 →
      resolveHops (HopsInput.num n) = n ∧
      (∀ (P : Providers) (validate : String → Bool) (cache : Cache) (addrA addrB : String),
        (runSearch P validate cache addrA addrB (HopsInput.num n)).meeting = none ∧
        (checkRelationship P validate cache addrA addrB (HopsInput.num n)).1.status =
          "No significant relationship found.")) := by
  refine ⟨rfl, rfl, rfl, ?_⟩
  intro n hn
  have hres : resolveHops (HopsInput.num n) = n := by
    simp [resolveHops]
    omega
  have htn : (resolveHops (HopsInput.num n)).toNat = 0 := by
    rw [hres]
    omega
  have hrs : ∀ (P : Providers) (validate : String → Bool) (cache : Cache) (addrA addrB : String),
      runSearch P validate cache addrA addrB (HopsInput.num n) =
        ⟨[(canonKey (identifyWallet validate addrA).chain addrA, defRec)],
         [(canonKey (identifyWallet validate addrA).chain addrB, defRec)],
         [], none, cache, 0⟩ := by
    intro P validate cache addrA addrB
    simp only [runSearch, htn]
    rw [stepLoop_zero]
  refine ⟨hres, ?_⟩
  intro P validate cache addrA addrB
  refine ⟨by rw [hrs], ?_⟩
  simp only [checkRelationship, hrs]

/-- C3 witness: the amended claim at the concrete negative budget −1. -/
theorem claim3_witness :
    (-1 : Int) < 0 ∧
    resolveHops (HopsInput.num (-1)) = -1 ∧
    (runSearch exProvEmpty exValidatorSol [] "A" "B" (HopsInput.num (-1))).meeting = none :=
  ⟨by decide,
   (claim3_amended.2.2.2 (-1) (by decide)).1,
   ((claim3_amended.2.2.2 (-1) (by decide)).2 exProvEmpty exValidatorSol [] "A" "B").1⟩

/-- C4: the spec demands that identical seed addresses terminate
immediately with the seed as a zero-hop meeting point and an empty
evidence chain, but the handler has no such check: the collision test
only fires for newly discovered neighbors, and the seed is already in
both visited maps.  At the failing input (both seeds `S`, no transfer
data, budget 2) the code expands normally and reports no relationship
at all instead of the zero-hop meeting point. -/
theorem claim4_code_behavior :
    (runSearch exProvEmpty exValidatorSol [] "S" "S" (HopsInput.num 2)).meeting = none ∧
    (checkRelationship exProvEmpty exValidatorSol [] "S" "S" (HopsInput.num 2)).1 =
      ⟨"No significant relationship found.", [], []⟩ := by
  refine ⟨by decide, by decide⟩

/-- C1: Over any complete search, spam-note addresses are pairwise
distinct (exactly one note per colliding address); every note's address
has records on both sides whose roles are both `RECEIVED_FROM` and whose
transaction references the note carries; a declared meeting point's two
records are never both `RECEIVED_FROM`; and the control flow is
immediate: a both-`RECEIVED_FROM` collision appends one note and the
neighbor loop continues, any other collision sets the meeting point and
breaks the neighbor loop, the frontier loop, and the step loop at once
(the remaining neighbors, frontier entries and steps do not occur in the
result). -/
theorem claim1_spam_vs_meeting :
    (∀ (P : Providers) (validate : String → Bool) (cache : Cache) (addrA addrB : String)
       (maxHops : HopsInput),
      ((runSearch P validate cache addrA addrB maxHops).spam.map SpamNote.address).Nodup ∧
      (∀ s, s ∈ (runSearch P validate cache addrA addrB maxHops).spam →
        ∃ rA rB, vlookup (runSearch P validate cache addrA addrB maxHops).vA s.address = some rA ∧
          vlookup (runSearch P validate cache addrA addrB maxHops).vB s.address = some rB ∧
          rA.role = some Role.received_from ∧ rB.role = some Role.received_from ∧
          s.txA = rA.tx ∧ s.txB = rB.tx) ∧
      (∀ m, (runSearch P validate cache addrA addrB maxHops).meeting = some m →
        ∃ rA rB, vlookup (runSearch P validate cache addrA addrB maxHops).vA m = some rA ∧
          vlookup (runSearch P validate cache addrA addrB maxHops).vB m = some rB ∧
          ¬(rA.role = some Role.received_from ∧ rB.role = some Role.received_from))) ∧
    (∀ (chain : Chain) (side : Side) (curr neighbor : String) (info : ConnInfo)
       (rest : List (String × ConnInfo)) (myV otherV : Visited) (nextQ : List String)
       (spam : List SpamNote) (ro : VisitedRecord),
      vlookup myV (canonKey chain neighbor) = none →
      vlookup otherV (canonKey chain neighbor) = some ro →
      ((info.role = Role.received_from ∧ ro.role = some Role.received_from →
        processNeighbors chain side curr ((neighbor, info) :: rest) myV otherV nextQ spam =
          processNeighbors chain side curr rest
            ((canonKey chain neighbor, (⟨some curr, some info.tx, some info.role⟩ : VisitedRecord)) :: myV)
            otherV (nextQ ++ [canonKey chain neighbor])
            (spam ++ [if side = Side.A
              then (⟨canonKey chain neighbor, some info.tx, ro.tx⟩ : SpamNote)
              else (⟨canonKey chain neighbor, ro.tx, some info.tx⟩ : SpamNote)])) ∧
       (¬(info.role = Role.received_from ∧ ro.role = some Role.received_from) →
        processNeighbors chain side curr ((neighbor, info) :: rest) myV otherV nextQ spam =
          ⟨(canonKey chain neighbor, (⟨some curr, some info.tx, some info.role⟩ : VisitedRecord)) :: myV,
           nextQ ++ [canonKey chain neighbor], spam, some (canonKey chain neighbor)⟩))) ∧
    (∀ (P : Providers) (chain : Chain) (side : Side) (curr : String) (restQ : List String)
       (myV otherV : Visited) (nextQ : List String) (spam : List SpamNote)
       (cache : Cache) (calls : Nat) (m : String),
      (processNeighbors chain side curr (getCachedTransfers P cache curr chain).conns
        myV otherV nextQ spam).meeting = some m →
      expandQueue P chain side (curr :: restQ) myV otherV nextQ spam cache calls =
        ⟨(processNeighbors chain side curr (getCachedTransfers P cache curr chain).conns
            myV otherV nextQ spam).myV,
         (processNeighbors chain side curr (getCachedTransfers P cache curr chain).conns
            myV otherV nextQ spam).nextQ,
         (processNeighbors chain side curr (getCachedTransfers P cache curr chain).conns
            myV otherV nextQ spam).spam,
         some m,
         (getCachedTransfers P cache curr chain).cache,
         calls + (if (getCachedTransfers P cache curr chain).called then 1 else 0)⟩) ∧
    (∀ (P : Providers) (chain : Chain) (fuel step : Nat) (queueA queueB : List String)
       (vA vB : Visited) (spam : List SpamNote) (cache : Cache) (calls : Nat) (m : String),
      (step % 2 ≠ 0 →
        (expandQueue P chain Side.A queueA vA vB [] spam cache calls).meeting = some m →
        stepLoop P chain (fuel + 1) step queueA queueB vA vB spam cache calls =
          ⟨(expandQueue P chain Side.A queueA vA vB [] spam cache calls).myV, vB,
           (expandQueue P chain Side.A queueA vA vB [] spam cache calls).spam, some m,
           (expandQueue P chain Side.A queueA vA vB [] spam cache calls).cache,
           (expandQueue P chain Side.A queueA vA vB [] spam cache calls).calls⟩) ∧
      (step % 2 = 0 →
        (expandQueue P chain Side.B queueB vB vA [] spam cache calls).meeting = some m →
        stepLoop P chain (fuel + 1) step queueA queueB vA vB spam cache calls =
          ⟨vA, (expandQueue P chain Side.B queueB vB vA [] spam cache calls).myV,
           (expandQueue P chain Side.B queueB vB vA [] spam cache calls).spam, some m,
           (expandQueue P chain Side.B queueB vB vA [] spam cache calls).cache,
           (expandQueue P chain Side.B queueB vB vA [] spam cache calls).calls⟩)) := by
  refine ⟨?_, ?_, ?_, ?_⟩
  · intro P validate cache addrA addrB maxHops
    simp only [runSearch]
    exact stepLoop_spam P (identifyWallet validate addrA).chain
      (resolveHops maxHops).toNat 1
      [canonKey (identifyWallet validate addrA).chain addrA]
      [canonKey (identifyWallet validate addrA).chain addrB]
      [(canonKey (identifyWallet validate addrA).chain addrA, defRec)]
      [(canonKey (identifyWallet validate addrA).chain addrB, defRec)]
      [] cache 0 (by simp) (by intro s hs; simp at hs)
  · intro chain side curr neighbor info rest myV otherV nextQ spam ro h1 h2
    constructor
    · intro hcond
      rw [processNeighbors_cons_collide h1 h2, if_pos hcond]
    · intro hcond
      rw [processNeighbors_cons_collide h1 h2, if_neg hcond]
  · intro P chain side curr restQ myV otherV nextQ spam cache calls m h
    exact expandQueue_cons_meeting h
  · intro P chain fuel step queueA queueB vA vB spam cache calls m
    constructor
    · intro hp heo
      rw [stepLoop_succ_sideA hp, heo]
    · intro hp heo
      rw [stepLoop_succ_sideB hp, heo]

/-- C1 witness: a concrete both-`RECEIVED_FROM` collision appends
exactly one spam note and continues, and a concrete mixed-role collision
sets the meeting point immediately. -/
theorem claim1_witness :
    vlookup ([] : Visited) (canonKey Chain.SOL "Z") = none ∧
    vlookup [("Z", (⟨some "B", some "t2", some Role.received_from⟩ : VisitedRecord))]
      (canonKey Chain.SOL "Z") = some (⟨some "B", some "t2", some Role.received_from⟩ : VisitedRecord) ∧
    ((⟨"t1", Role.received_from⟩ : ConnInfo).role = Role.received_from ∧
      (⟨some "B", some "t2", some Role.received_from⟩ : VisitedRecord).role = some Role.received_from) ∧
    ¬((⟨"t1", Role.sent_to⟩ : ConnInfo).role = Role.received_from ∧
      (⟨some "B", some "t2", some Role.received_from⟩ : VisitedRecord).role = some Role.received_from) ∧
    processNeighbors Chain.SOL Side.A "A" [("Z", ⟨"t1", Role.received_from⟩)] []
      [("Z", (⟨some "B", some "t2", some Role.received_from⟩ : VisitedRecord))] [] [] =
      processNeighbors Chain.SOL Side.A "A" [] [(canonKey Chain.SOL "Z",
        (⟨some "A", some "t1", some Role.received_from⟩ : VisitedRecord))]
        [("Z", (⟨some "B", some "t2", some Role.received_from⟩ : VisitedRecord))]
        ([] ++ [canonKey Chain.SOL "Z"])
        ([] ++ [if Side.A = Side.A
          then (⟨canonKey Chain.SOL "Z", some "t1", some "t2"⟩ : SpamNote)
          else (⟨canonKey Chain.SOL "Z", some "t2", some "t1"⟩ : SpamNote)]) ∧
    processNeighbors Chain.SOL Side.A "A" [("Z", ⟨"t1", Role.sent_to⟩)] []
      [("Z", (⟨some "B", some "t2", some Role.received_from⟩ : VisitedRecord))] [] [] =
      ⟨[(canonKey Chain.SOL "Z", (⟨some "A", some "t1", some Role.sent_to⟩ : VisitedRecord))],
       [] ++ [canonKey Chain.SOL "Z"], [], some (canonKey Chain.SOL "Z")⟩ :=
  ⟨rfl, by simp [canonKey], by decide, by decide,
   (claim1_spam_vs_meeting.2.1 Chain.SOL Side.A "A" "Z" ⟨"t1", Role.received_from⟩ [] []
      [("Z", (⟨some "B", some "t2", some Role.received_from⟩ : VisitedRecord))] [] []
      (⟨some "B", some "t2", some Role.received_from⟩ : VisitedRecord) rfl
      (by simp [canonKey])).1 (by decide),
   (claim1_spam_vs_meeting.2.1 Chain.SOL Side.A "A" "Z" ⟨"t1", Role.sent_to⟩ [] []
      [("Z", (⟨some "B", some "t2", some Role.received_from⟩ : VisitedRecord))] [] []
      (⟨some "B", some "t2", some Role.received_from⟩ : VisitedRecord) rfl
      (by simp [canonKey])).2 (by decide)⟩

/-- C5: Whenever the search finds a meeting point, the reconstructed
evidence chain's length is at most the resolved hop budget, and that
length is embedded in the conclusion's status text. -/
theorem claim5_evidence_bound :
    ∀ (P : Providers) (validate : String → Bool) (cache : Cache) (addrA addrB : String)
      (maxHops : HopsInput) (m : String),
    (runSearch P validate cache addrA addrB maxHops).meeting = some m →
    ((checkRelationship P validate cache addrA addrB maxHops).1.evidence.length ≤
       (resolveHops maxHops).toNat ∧
     (checkRelationship P validate cache addrA addrB maxHops).1.status =
       "Connection Found (" ++
         toString (checkRelationship P validate cache addrA addrB maxHops).1.evidence.length ++
         " Hops)") := by
  intro P validate cache addrA addrB maxHops m hm
  have hRS : runSearch P validate cache addrA addrB maxHops =
      stepLoop P (identifyWallet validate addrA).chain (resolveHops maxHops).toNat 1
        [canonKey (identifyWallet validate addrA).chain addrA]
        [canonKey (identifyWallet validate addrA).chain addrB]
        [(canonKey (identifyWallet validate addrA).chain addrA, defRec)]
        [(canonKey (identifyWallet validate addrA).chain addrB, defRec)]
        [] cache 0 := rfl
  have hseedA : ∀ a, a ∈ [canonKey (identifyWallet validate addrA).chain addrA] →
      ∃ n, n ≤ 0 ∧ ParentChain [(canonKey (identifyWallet validate addrA).chain addrA, defRec)] a n := by
    intro a ha
    simp only [List.mem_singleton] at ha
    subst ha
    exact ⟨0, le_refl 0, ParentChain.zero _ defRec (by simp) rfl⟩
  have hkeysA : ∀ a r, vlookup [(canonKey (identifyWallet validate addrA).chain addrA, defRec)] a = some r →
      ∃ n, n ≤ 0 ∧ ParentChain [(canonKey (identifyWallet validate addrA).chain addrA, defRec)] a n := by
    intro a r h
    rw [vlookup_cons] at h
    split at h
    · next heq => subst heq; exact ⟨0, le_refl 0, ParentChain.zero _ defRec (by simp) rfl⟩
    · simp at h
  have hseedB : ∀ a, a ∈ [canonKey (identifyWallet validate addrA).chain addrB] →
      ∃ n, n ≤ 0 ∧ ParentChain [(canonKey (identifyWallet validate addrA).chain addrB, defRec)] a n := by
    intro a ha
    simp only [List.mem_singleton] at ha
    subst ha
    exact ⟨0, le_refl 0, ParentChain.zero _ defRec (by simp) rfl⟩
  have hkeysB : ∀ a r, vlookup [(canonKey (identifyWallet validate addrA).chain addrB, defRec)] a = some r →
      ∃ n, n ≤ 0 ∧ ParentChain [(canonKey (identifyWallet validate addrA).chain addrB, defRec)] a n := by
    intro a r h
    rw [vlookup_cons] at h
    split at h
    · next heq => subst heq; exact ⟨0, le_refl 0, ParentChain.zero _ defRec (by simp) rfl⟩
    · simp at h
  have hd := stepLoop_depth P (identifyWallet validate addrA).chain
    (resolveHops maxHops).toNat 1
    [canonKey (identifyWallet validate addrA).chain addrA]
    [canonKey (identifyWallet validate addrA).chain addrB]
    [(canonKey (identifyWallet validate addrA).chain addrA, defRec)]
    [(canonKey (identifyWallet validate addrA).chain addrB, defRec)]
    [] cache 0 0 0 hseedA hkeysA hseedB hkeysB m (by rw [← hRS]; exact hm)
  obtain ⟨nA, nB, hcA, hcB, hle⟩ := hd
  rw [← hRS] at hcA hcB
  have hlen : (reconstructPath (runSearch P validate cache addrA addrB maxHops).vA
      (runSearch P validate cache addrA addrB maxHops).vB m
      (identifyWallet validate addrA).txBase).length ≤ (resolveHops maxHops).toNat := by
    rw [reconstructPath, List.length_append]
    have h1 := @walkToA_length_le (runSearch P validate cache addrA addrB maxHops).vA
      (identifyWallet validate addrA).txBase m nA hcA
      ((runSearch P validate cache addrA addrB maxHops).vA.length + 1)
    have h2 := @walkToB_length_le (runSearch P validate cache addrA addrB maxHops).vB
      (identifyWallet validate addrA).txBase m nB hcB
      ((runSearch P validate cache addrA addrB maxHops).vB.length + 1)
    omega
  have hcr : (checkRelationship P validate cache addrA addrB maxHops).1 =
      ⟨"Connection Found (" ++
         toString (reconstructPath (runSearch P validate cache addrA addrB maxHops).vA
           (runSearch P validate cache addrA addrB maxHops).vB m
           (identifyWallet validate addrA).txBase).length ++ " Hops)",
       reconstructPath (runSearch P validate cache addrA addrB maxHops).vA
         (runSearch P validate cache addrA addrB maxHops).vB m
         (identifyWallet validate addrA).txBase,
       (runSearch P validate cache addrA addrB maxHops).spam.map (fun s =>
         (⟨shorten s.address, (identifyWallet validate addrA).txBase ++ jsStr s.txA,
           (identifyWallet validate addrA).txBase ++ jsStr s.txB⟩ : SpamOut))⟩ := by
    simp only [checkRelationship, hm]
  rw [hcr]
  exact ⟨hlen, rfl⟩

/-- C5 witness: on the spec's running example the meeting point is `X`,
the evidence chain has length 2, and the resolved budget is 2. -/
theorem claim5_witness :
    (runSearch exProvAB exValidatorSol [] "A" "B" (HopsInput.num 2)).meeting = some "X" ∧
    (checkRelationship exProvAB exValidatorSol [] "A" "B" (HopsInput.num 2)).1.evidence.length ≤
      (resolveHops (HopsInput.num 2)).toNat ∧
    (checkRelationship exProvAB exValidatorSol [] "A" "B" (HopsInput.num 2)).1.status =
      "Connection Found (" ++
        toString (checkRelationship exProvAB exValidatorSol [] "A" "B" (HopsInput.num 2)).1.evidence.length ++
        " Hops)" :=
  ⟨by decide,
   (claim5_evidence_bound exProvAB exValidatorSol [] "A" "B" (HopsInput.num 2) "X" (by decide)).1,
   (claim5_evidence_bound exProvAB exValidatorSol [] "A" "B" (HopsInput.num 2) "X" (by decide)).2⟩

/-- C8: Each side's visited map is a tree: its keys are pairwise
distinct (exactly one record, hence one parent, per address), the seed
record (parent `null`) survives the whole search unchanged, and every
step of the loop only extends the visited maps — a record once written
is never overwritten. -/
theorem claim8_tree_invariant :
    (∀ (P : Providers) (validate : String → Bool) (cache : Cache) (addrA addrB : String)
       (maxHops : HopsInput),
      (keys (runSearch P validate cache addrA addrB maxHops).vA).Nodup ∧
      (keys (runSearch P validate cache addrA addrB maxHops).vB).Nodup ∧
      vlookup (runSearch P validate cache addrA addrB maxHops).vA
        (canonKey (identifyWallet validate addrA).chain addrA) = some defRec ∧
      vlookup (runSearch P validate cache addrA addrB maxHops).vB
        (canonKey (identifyWallet validate addrA).chain addrB) = some defRec) ∧
    (∀ (P : Providers) (chain : Chain) (fuel step : Nat) (queueA queueB : List String)
       (vA vB : Visited) (spam : List SpamNote) (cache : Cache) (calls : Nat),
      Extends vA (stepLoop P chain fuel step queueA queueB vA vB spam cache calls).vA ∧
      Extends vB (stepLoop P chain fuel step queueA queueB vA vB spam cache calls).vB) := by
  constructor
  · intro P validate cache addrA addrB maxHops
    have hRS : runSearch P validate cache addrA addrB maxHops =
        stepLoop P (identifyWallet validate addrA).chain (resolveHops maxHops).toNat 1
          [canonKey (identifyWallet validate addrA).chain addrA]
          [canonKey (identifyWallet validate addrA).chain addrB]
          [(canonKey (identifyWallet validate addrA).chain addrA, defRec)]
          [(canonKey (identifyWallet validate addrA).chain addrB, defRec)]
          [] cache 0 := rfl
    have hnd := stepLoop_keys_nodup P (identifyWallet validate addrA).chain
      (resolveHops maxHops).toNat 1
      [canonKey (identifyWallet validate addrA).chain addrA]
      [canonKey (identifyWallet validate addrA).chain addrB]
      [(canonKey (identifyWallet validate addrA).chain addrA, defRec)]
      [(canonKey (identifyWallet validate addrA).chain addrB, defRec)]
      [] cache 0 (by simp [keys]) (by simp [keys])
    have hext := stepLoop_extends P (identifyWallet validate addrA).chain
      (resolveHops maxHops).toNat 1
      [canonKey (identifyWallet validate addrA).chain addrA]
      [canonKey (identifyWallet validate addrA).chain addrB]
      [(canonKey (identifyWallet validate addrA).chain addrA, defRec)]
      [(canonKey (identifyWallet validate addrA).chain addrB, defRec)]
      [] cache 0
    rw [hRS]
    exact ⟨hnd.1, hnd.2, hext.1 _ _ (by simp), hext.2 _ _ (by simp)⟩
  · intro P chain fuel step queueA queueB vA vB spam cache calls
    exact stepLoop_extends P chain fuel step queueA queueB vA vB spam cache calls

set_option maxRecDepth 8000 in
/-- C6 counterexample: the claim says a failed lookup stores and returns
an *empty* result set, but the page loop returns the partial set
gathered before the failure.  With a full first page (`S` received from
`Z`, 100 transactions) and a failing second request, the cache stores
and returns a non-empty map. -/
theorem claim6_counterexample :
    exProvCutoff.sol "S" 2 = Except.error () ∧
    fetchSolanaTransfers (exProvCutoff.sol "S") "S" =
      [("Z", (⟨"t", Role.received_from⟩ : ConnInfo))] ∧
    getCachedTransfers exProvCutoff [] "S" Chain.SOL =
      ⟨[("Z", (⟨"t", Role.received_from⟩ : ConnInfo))],
       [("S", [("Z", (⟨"t", Role.received_from⟩ : ConnInfo))])], true⟩ ∧
    [("Z", (⟨"t", Role.received_from⟩ : ConnInfo))] ≠ ([] : ConnMap) := by
  refine ⟨rfl, by decide, by decide, by decide⟩

/-- C6 amended: when the Transfer Source fails, the cache stores and
returns the partial result gathered before the failure — empty when the
failure precedes any data — instead of propagating the failure; with a
totally failing Transfer Source the handler still emits the ordinary
not-found conclusion rather than an error. -/
theorem claim6_amended :
    (∀ (P : Providers) (cache : Cache) (address : String),
      vlookup cache address = none →
      P.sol address 1 = Except.error () →
      getCachedTransfers P cache address Chain.SOL = ⟨[], mapSet cache address [], true⟩) ∧
    (∀ (P : Providers) (cache : Cache) (address : String),
      vlookup cache address = none →
      P.eth (jsToLower address) 1 = Except.error () →
      getCachedTransfers P cache address Chain.ETH = ⟨[], mapSet cache address [], true⟩) ∧
    ((checkRelationship exProvFail exValidatorSol [] "A" "B" (HopsInput.num 2)).1 =
      ⟨"No significant relationship found.", [], []⟩) := by
  refine ⟨?_, ?_, by decide⟩
  · intro P cache address hnone hfail
    rw [getCached_miss hnone]
    have : fetchForChain P address Chain.SOL = [] := by
      simp [fetchForChain, fetchSolanaTransfers, fetchSolPages, hfail]
    rw [this]
  · intro P cache address hnone hfail
    rw [getCached_miss hnone]
    have : fetchForChain P address Chain.ETH = [] := by
      simp [fetchForChain, fetchEthTransfers, fetchEthPages, hfail]
    rw [this]

/-- C6 witness: an immediately failing Solana lookup stores and returns
the empty result. -/
theorem claim6_witness :
    vlookup ([] : Cache) "S" = none ∧
    exProvFail.sol "S" 1 = Except.error () ∧
    getCachedTransfers exProvFail [] "S" Chain.SOL = ⟨[], mapSet [] "S" [], true⟩ :=
  ⟨rfl, rfl, claim6_amended.1 exProvFail [] "S" rfl rfl⟩

/-- Re-running the search from its own output cache reproduces the same
search state, leaves the cache unchanged and makes no Transfer Source
calls. -/
theorem runSearch_cache_idem (P : Providers) (validate : String → Bool) (cache : Cache)
    (addrA addrB : String) (maxHops : HopsInput) :
    runSearch P validate (runSearch P validate cache addrA addrB maxHops).cache addrA addrB maxHops =
      ⟨(runSearch P validate cache addrA addrB maxHops).vA,
       (runSearch P validate cache addrA addrB maxHops).vB,
       (runSearch P validate cache addrA addrB maxHops).spam,
       (runSearch P validate cache addrA addrB maxHops).meeting,
       (runSearch P validate cache addrA addrB maxHops).cache, 0⟩ := by
  exact stepLoop_sim P (identifyWallet validate addrA).chain
    (resolveHops maxHops).toNat 1
    [canonKey (identifyWallet validate addrA).chain addrA]
    [canonKey (identifyWallet validate addrA).chain addrB]
    [(canonKey (identifyWallet validate addrA).chain addrA, defRec)]
    [(canonKey (identifyWallet validate addrA).chain addrB, defRec)]
    [] cache 0 _ 0 (extends_refl _)

/-- C7: A cache hit returns the stored result without contacting the
Transfer Source; a miss stores the full fetched result (even if empty)
before returning it; hence re-invoking the handler with the same two
addresses and budget against its own output cache yields the identical
conclusion, the identical cache, and zero Transfer Source calls. -/
theorem claim7_cache :
    (∀ (P : Providers) (cache : Cache) (address : String) (chain : Chain) (v : ConnMap),
      vlookup cache address = some v →
      getCachedTransfers P cache address chain = ⟨v, cache, false⟩) ∧
    (∀ (P : Providers) (cache : Cache) (address : String) (chain : Chain),
      vlookup cache address = none →
      getCachedTransfers P cache address chain =
        ⟨fetchForChain P address chain,
         mapSet cache address (fetchForChain P address chain), true⟩) ∧
    (∀ (P : Providers) (validate : String → Bool) (cache : Cache) (addrA addrB : String)
       (maxHops : HopsInput),
      checkRelationship P validate
          (checkRelationship P validate cache addrA addrB maxHops).2.1 addrA addrB maxHops =
        ((checkRelationship P validate cache addrA addrB maxHops).1,
         (checkRelationship P validate cache addrA addrB maxHops).2.1, 0)) := by
  refine ⟨?_, ?_, ?_⟩
  · intro P cache address chain v h
    exact getCached_hit h
  · intro P cache address chain h
    exact getCached_miss h
  · intro P validate cache addrA addrB maxHops
    have h1 : (checkRelationship P validate cache addrA addrB maxHops).2.1 =
        (runSearch P validate cache addrA addrB maxHops).cache := by
      cases hm : (runSearch P validate cache addrA addrB maxHops).meeting <;>
        simp [checkRelationship, hm]
    rw [h1]
    have h2 := runSearch_cache_idem P validate cache addrA addrB maxHops
    cases hm : (runSearch P validate cache addrA addrB maxHops).meeting <;>
      simp [checkRelationship, h2, hm]

/-- C7 witness: a concrete hit, a concrete miss, and idempotent
re-invocation on the spec example. -/
theorem claim7_witness :
    vlookup [("S", ([] : ConnMap))] "S" = some ([] : ConnMap) ∧
    getCachedTransfers exProvEmpty [("S", [])] "S" Chain.SOL = ⟨[], [("S", [])], false⟩ ∧
    vlookup ([] : Cache) "S" = none ∧
    getCachedTransfers exProvEmpty [] "S" Chain.SOL =
      ⟨fetchForChain exProvEmpty "S" Chain.SOL,
       mapSet [] "S" (fetchForChain exProvEmpty "S" Chain.SOL), true⟩ ∧
    checkRelationship exProvAB exValidatorSol
        (checkRelationship exProvAB exValidatorSol [] "A" "B" (HopsInput.num 2)).2.1
        "A" "B" (HopsInput.num 2) =
      ((checkRelationship exProvAB exValidatorSol [] "A" "B" (HopsInput.num 2)).1,
       (checkRelationship exProvAB exValidatorSol [] "A" "B" (HopsInput.num 2)).2.1, 0) :=
  ⟨by simp, claim7_cache.1 exProvEmpty [("S", [])] "S" Chain.SOL [] (by simp), rfl,
   claim7_cache.2.1 exProvEmpty [] "S" Chain.SOL rfl,
   claim7_cache.2.2 exProvAB exValidatorSol [] "A" "B" (HopsInput.num 2)⟩

/-- C9: Chain selection never consults address B: two validators that
agree on address A (whatever they say about B or anything else) give the
handler identical behaviour — seeds, fetches, visited keys and
transaction-link bases on both sides all follow A's classification. -/
theorem claim9_chain_from_A :
    ∀ (P : Providers) (cache : Cache) (addrA addrB : String) (maxHops : HopsInput)
      (v1 v2 : String → Bool),
    v1 addrA = v2 addrA →
    checkRelationship P v1 cache addrA addrB maxHops =
      checkRelationship P v2 cache addrA addrB maxHops := by
  intro P cache addrA addrB maxHops v1 v2 h
  have hw : identifyWallet v1 addrA = identifyWallet v2 addrA := by
    simp [identifyWallet, h]
  simp only [checkRelationship, runSearch, hw]

/-- C9 witness: a validator that accepts everything and one that only
accepts `A` agree on `A`, and the handler output is identical even
though they classify `B` differently. -/
theorem claim9_witness :
    (fun _ : String => true) "A" = (fun s : String => s == "A") "A" ∧
    (fun _ : String => true) "B" ≠ (fun s : String => s == "A") "B" ∧
    checkRelationship exProvAB (fun _ => true) [] "A" "B" (HopsInput.num 2) =
      checkRelationship exProvAB (fun s => s == "A") [] "A" "B" (HopsInput.num 2) :=
  ⟨by decide, by decide,
   claim9_chain_from_A exProvAB [] "A" "B" (HopsInput.num 2) (fun _ => true)
     (fun s => s == "A") (by decide)⟩

/-- C10 counterexample: the two handlers are not equivalent.  With A
classified as Ethereum, seed `0xB` in mixed case, and the Transfer
Source reporting `0xa` sent to `0xB`, `index.js` lowercases the seeds
and finds meeting point `0xb` in one step, while the variant keeps the
raw seed `0xB`, misses the collision, and reports nothing. -/
theorem claim10_counterexample :
    indexOutcome exProvEth exValidatorEth [] "0xa" "0xB" (HopsInput.num 2) ≠
      variantOutcome exProvEth exValidatorEth [] "0xa" "0xB" (HopsInput.num 2) := by
  decide

/-- C10 amended: the two engines produce the same outcome (found/not
found decision, meeting point, evidence pairs, spam notes) whenever the
case canonicalization for A's chain fixes both seeds and every address
stored in the cache or returned by a fetch — in particular always when
A classifies as Solana, where canonicalization is the identity. -/
theorem claim10_amended :
    ∀ (P : Providers) (validate : String → Bool) (cache : Cache) (addrA addrB : String)
      (maxHops : HopsInput),
    canonKey (identifyWallet validate addrA).chain addrA = addrA →
    canonKey (identifyWallet validate addrA).chain addrB = addrB →
    CacheCanon (identifyWallet validate addrA).chain cache →
    (∀ a, ConnsCanon (identifyWallet validate addrA).chain
       (fetchForChain P a (identifyWallet validate addrA).chain)) →
    indexOutcome P validate cache addrA addrB maxHops =
      variantOutcome P validate cache addrA addrB maxHops := by
  intro P validate cache addrA addrB maxHops hA hB hc hf
  have hrs : runSearch P validate cache addrA addrB maxHops =
      vrunSearch P validate cache addrA addrB maxHops := by
    simp only [runSearch, vrunSearch]
    rw [hA, hB]
    exact stepLoop_eq_vstep P (identifyWallet validate addrA).chain
      (resolveHops maxHops).toNat 1 [addrA] [addrB]
      [(addrA, defRec)] [(addrB, defRec)] [] cache 0 hc hf
  simp only [indexOutcome, variantOutcome, hrs]

/-- C10 witness: the amended claim on the Solana-classified spec
example, where all canonicalization hypotheses hold trivially. -/
theorem claim10_witness :
    canonKey (identifyWallet exValidatorSol "A").chain "A" = "A" ∧
    canonKey (identifyWallet exValidatorSol "A").chain "B" = "B" ∧
    CacheCanon (identifyWallet exValidatorSol "A").chain [] ∧
    (∀ a, ConnsCanon (identifyWallet exValidatorSol "A").chain
       (fetchForChain exProvAB a (identifyWallet exValidatorSol "A").chain)) ∧
    indexOutcome exProvAB exValidatorSol [] "A" "B" (HopsInput.num 2) =
      variantOutcome exProvAB exValidatorSol [] "A" "B" (HopsInput.num 2) :=
  ⟨rfl, rfl,
   (by intro p hp; cases hp),
   (by intro a p hp; rfl),
   claim10_amended exProvAB exValidatorSol [] "A" "B" (HopsInput.num 2) rfl rfl
     (by intro p hp; cases hp) (by intro a p hp; rfl)⟩
